import Mathlib

/-!
# Verification of the faang-jobs-scraper reconciliation core

Shallow embedding of the reconciliation engine of the repository:

* `src/storage/dynamo.py` — the catalogue store (`list_urls`,
  `batch_upsert_items`, `_put_item`, `finalize_company`) and the run lease
  (`acquire_lock`, `release_lock`).  The DynamoDB table is modelled as an
  association list from the composite key `(company, url)` to the stored
  item; a conditional `put_item` becomes a guarded update, `batch_writer`
  deletes become list filtering.  Epoch-second timestamps are `Int` values
  passed explicitly (each `int(time.time())` call site receives the run's
  clock value as a parameter).
* `src/scraper/runner.py` — `process_company` (discovery dedup, the
  `todo = discovered - existing` delta, the optional cap, the two
  detail-fetch loops with chunked flushing, and the finalize call) and
  `run` (lease acquisition, per-company error isolation, summary).
* `src/api/handler.py` — the limit clamping of `lambda_handler` and the
  per-item serialization of the read path.

External collaborators (network fetches, HTML extraction in
`src/scraper/parsing.py`, the Playwright description batches of the
meta/netflix modules) are parameters of the model: a per-URL oracle
`fetchPage : String → Option Page` stands for the `try:` body
`_fetch_html` + `extract_title` + `extract_description_from_html` +
`parse_posted_at` + `parse_location_fields` (`none` = a raised exception),
`batchDesc : String → Option String` stands for
`get_descriptions_batch` (`none` = URL missing from the returned dict),
and `classify : String → String → String` stands for
`classify_category`.  The AWS mode (`USE_DDB = True`) is modelled, since
every claim concerns the catalogue reconciliation path.
-/

set_option autoImplicit false

namespace FaangJobs

/-! ## Data model: stored postings (`src/storage/dynamo.py`) -/

/-- One stored DynamoDB item, with the exact attributes written by
`_put_item` / `batch_upsert_items` (`src/storage/dynamo.py`, lines 63–79
and 96–110). -/
structure Item where
  company_url : String
  title : String
  description : String
  category : String
  posted_at : Int
  loc_country : String
  loc_admin1 : String
  loc_city : String
  remote : Int
  active : Int
  last_seen_at : Int
deriving Repr, DecidableEq

/-- The draft dict accumulated in `process_company`'s `chunk`
(`src/scraper/runner.py`, lines 77–81 and 103–107): the fields handed to
`batch_upsert_items` before normalization. -/
structure Draft where
  title : String
  description : String
  category : String
  posted_at : Int
  loc_country : String
  loc_admin1 : String
  loc_city : String
  remote : Int
deriving Repr, DecidableEq

/-- The postings table: an association list from the composite key
`(company, url)` to the stored item.  DynamoDB key uniqueness is realised
by `putPosting` removing any previous entry with the same key. -/
abbrev Store := List ((String × String) × Item)

/-- Read one item by its full key (a DynamoDB `get_item`). -/
def getPosting (s : Store) (k : String × String) : Option Item :=
  (s.find? (fun e => decide (e.1 = k))).map (fun e => e.2)

/-- Overwrite-put of one item (DynamoDB `put_item` semantics on the
composite key `(company, url)`). -/
def putPosting (s : Store) (k : String × String) (v : Item) : Store :=
  (k, v) :: s.filter (fun e => decide (e.1 ≠ k))

/-- `list_urls(company)` (`src/storage/dynamo.py`, lines 34–50): the urls
of every item stored under the partition key `company`.  The paginated
`query` loop is modelled by a full traversal; the Python function returns
a set, modelled here as the list of urls (claims use its membership, and
`finalize_company` takes its `toFinset`). -/
def listUrls (s : Store) (company : String) : List String :=
  (s.filter (fun e => decide (e.1.1 = company))).map (fun e => e.1.2)

/-- Boolean presence of a key in the store. -/
def hasKeyB (s : Store) (k : String × String) : Bool :=
  (getPosting s k).isSome

/-! ## Write normalization (`_put_item` / `batch_upsert_items`) -/

/-- Python `str.upper()` for the country code: character-wise upper-case
(equivalent to `String.toUpper`, written over the character list so that
concrete instances reduce). -/
def pyUpper (s : String) : String := String.mk (s.data.map Char.toUpper)

/-- The defaults-and-normalization block shared verbatim by `_put_item`
(lines 54–79) and `batch_upsert_items` (lines 87–110):
`title or ""` and the other `or ""` guards are the identity on strings,
`int(item.get("posted_at") or now_ts)` replaces a zero/absent timestamp
with the write time, `loc_country` is upper-cased,
`remote = int(bool(...))` collapses to 0/1, `active` is hard-coded to 1
and `last_seen_at` to the write time. -/
def normItem (url : String) (d : Draft) (now_ts : Int) : Item :=
  { company_url := url
    title := d.title
    description := d.description
    category := if d.category = "" then "other" else d.category
    posted_at := if d.posted_at = 0 then now_ts else d.posted_at
    loc_country := pyUpper d.loc_country
    loc_admin1 := d.loc_admin1
    loc_city := d.loc_city
    remote := if d.remote = 0 then 0 else 1
    active := 1
    last_seen_at := now_ts }

/-- `_put_item(company, url, item, now_ts)` (`src/storage/dynamo.py`,
lines 53–79). -/
def put_item (s : Store) (company url : String) (d : Draft) (now_ts : Int) : Store :=
  putPosting s (company, url) (normItem url d now_ts)

/-- `batch_upsert_items(company, url_to_item)` (`src/storage/dynamo.py`,
lines 81–110): one overwrite-put per entry of the chunk dict, in
insertion order, all stamped with the same `now_ts = int(time.time())`. -/
def batch_upsert_items (s : Store) (company : String)
    (url_to_item : List (String × Draft)) (now_ts : Int) : Store :=
  url_to_item.foldl (fun st p => putPosting st (company, p.1) (normItem p.1 p.2 now_ts)) s

/-- `finalize_company(company, discovered_urls)` (`src/storage/dynamo.py`,
lines 112–123): delete every stored url of `company` that is not in the
discovered set; returns the new store and the `{"deleted": n}` count. -/
def finalize_company (s : Store) (company : String) (discovered_urls : List String) :
    Store × Nat :=
  let discovered := discovered_urls.toFinset
  let existing := (listUrls s company).toFinset
  let to_delete := existing \ discovered
  (s.filter (fun e => decide (¬(e.1.1 = company ∧ e.1.2 ∈ to_delete))), to_delete.card)

/-! ## The run lease (`acquire_lock` / `release_lock`) -/

/-- The lease records: an association list from the lease name (the sort
key `url` of the reserved partition `company = "__lock__"`) to its
`lock_expires_at` value. -/
abbrev Locks := List (String × Int)

/-- Lookup of the lease record for one name. -/
def lockLookup (ls : Locks) (key : String) : Option Int :=
  (ls.find? (fun p => decide (p.1 = key))).map (fun p => p.2)

/-- Overwrite-put of a lease record. -/
def putLock (ls : Locks) (key : String) (expires : Int) : Locks :=
  (key, expires) :: ls.filter (fun p => decide (p.1 ≠ key))

/-- `acquire_lock(lock_key, ttl_sec)` (`src/storage/dynamo.py`, lines
11–25): a conditional put with condition
`attribute_not_exists(company) OR lock_expires_at <= :now`.  Returns
whether the put succeeded together with the resulting lease table
(unchanged on a `ConditionalCheckFailedException`). -/
def acquire_lock (ls : Locks) (lock_key : String) (ttl_sec : Int) (now : Int) :
    Bool × Locks :=
  match lockLookup ls lock_key with
  | none => (true, putLock ls lock_key (now + ttl_sec))
  | some e =>
      if e ≤ now then (true, putLock ls lock_key (now + ttl_sec))
      else (false, ls)

/-- `release_lock(lock_key)` (`src/storage/dynamo.py`, lines 27–31):
delete the lease record. -/
def release_lock (ls : Locks) (lock_key : String) : Locks :=
  ls.filter (fun p => decide (p.1 ≠ lock_key))

/-- The leases of `ls` that are unexpired at time `now`. -/
def unexpiredLeases (ls : Locks) (now : Int) : Locks :=
  ls.filter (fun p => decide (now < p.2))

/-- Lease tables reachable from the empty table through `acquire_lock`
and `release_lock` calls on the deployment's single lease name (spec §3:
"Key: lease name (constant per deployment)"). -/
inductive LockReach (key : String) : Locks → Prop
  | init : LockReach key []
  | acq (ttl now : Int) {ls : Locks} :
      LockReach key ls → LockReach key (acquire_lock ls key ttl now).2
  | rel {ls : Locks} :
      LockReach key ls → LockReach key (release_lock ls key)

/-! ## Basic store lemmas -/

theorem find?_filter_of_imp {α : Type} (p q : α → Bool)
    (h : ∀ e, p e = true → q e = true) :
    ∀ l : List α, (l.filter q).find? p = l.find? p := by
  intro l
  induction l with
  | nil => rfl
  | cons e l ih =>
      by_cases hq : q e = true
      · simp only [List.filter_cons, hq, if_true, List.find?]
        cases hp : p e <;> simp [List.find?, hp, ih]
      · have hp : p e = false := by
          cases hp : p e
          · rfl
          · exact absurd (h e hp) hq
        simp only [List.filter_cons, hq, if_false, List.find?, hp]
        simpa [List.find?, hp] using ih

theorem getPosting_putPosting (s : Store) (k k' : String × String) (v : Item) :
    getPosting (putPosting s k v) k' = if k' = k then some v else getPosting s k' := by
  by_cases h : k' = k
  · subst h
    simp [getPosting, putPosting, List.find?]
  · have hne : (decide (k = k') : Bool) = false := by
      simp [decide_eq_false_iff_not]
      exact fun hk => h hk.symm
    simp only [getPosting, putPosting, List.find?, hne, if_neg h, cond_false]
    congr 1
    exact find?_filter_of_imp _ _
      (by
        intro e he
        have : e.1 = k' := of_decide_eq_true he
        simp [this, h]) s

theorem getPosting_isSome_iff (s : Store) (k : String × String) :
    (getPosting s k).isSome = true ↔ ∃ e ∈ s, e.1 = k := by
  have hmap : (getPosting s k).isSome
      = (s.find? (fun e => decide (e.1 = k))).isSome := by
    unfold getPosting
    cases s.find? (fun e => decide (e.1 = k)) <;> rfl
  rw [hmap, List.find?_isSome]
  simp only [decide_eq_true_eq]

theorem getPosting_eq_none_iff (s : Store) (k : String × String) :
    getPosting s k = none ↔ ∀ it : Item, (k, it) ∉ s := by
  have h1 : getPosting s k = none ↔ ¬((getPosting s k).isSome = true) := by
    cases h : getPosting s k <;> simp
  rw [h1, getPosting_isSome_iff]
  constructor
  · intro h it hmem
    exact h ⟨(k, it), hmem, rfl⟩
  · rintro h ⟨e, hmem, hk⟩
    exact h e.2 (by
      have : e = (k, e.2) := by
        cases e
        simp only at hk
        simp [hk]
      exact this ▸ hmem)

theorem mem_listUrls_iff (s : Store) (c u : String) :
    u ∈ listUrls s c ↔ hasKeyB s (c, u) = true := by
  unfold hasKeyB
  rw [getPosting_isSome_iff]
  simp only [listUrls, List.mem_map, List.mem_filter, decide_eq_true_eq]
  constructor
  · rintro ⟨e, ⟨he, hc⟩, hu⟩
    refine ⟨e, he, ?_⟩
    cases e with
    | mk k it =>
        cases k with
        | mk ec eu =>
            simp only at hc hu
            simp [hc, hu]
  · rintro ⟨e, he, hk⟩
    refine ⟨e, ⟨he, ?_⟩, ?_⟩
    · rw [hk]
    · rw [hk]

/-! ## Batch-upsert lemmas -/

/-- The draft that the last write of a `batch_upsert_items` call leaves
for a given url (chunk dicts have unique keys; for generality the last
occurrence of the url in the entry list wins, matching the fold). -/
def lookupLast (l : List (String × Draft)) (u : String) : Option Draft :=
  match l with
  | [] => none
  | p :: rest =>
      match lookupLast rest u with
      | some d => some d
      | none => if p.1 = u then some p.2 else none

theorem lookupLast_cons (p : String × Draft) (rest : List (String × Draft))
    (u : String) :
    lookupLast (p :: rest) u
      = match lookupLast rest u with
        | some d => some d
        | none => if p.1 = u then some p.2 else none := rfl

theorem lookupLast_mem {l : List (String × Draft)} {u : String} {d : Draft}
    (h : lookupLast l u = some d) : (u, d) ∈ l := by
  induction l with
  | nil => cases h
  | cons p rest ih =>
      obtain ⟨a, b⟩ := p
      rw [lookupLast_cons] at h
      cases hrest : lookupLast rest u with
      | some d' =>
          rw [hrest] at h
          have h' : some d' = some d := h
          cases h'
          exact List.mem_cons_of_mem _ (ih hrest)
      | none =>
          rw [hrest] at h
          have h' : (if a = u then some b else none) = some d := h
          by_cases hp : a = u
          · rw [if_pos hp] at h'
            have hbd : b = d := by cases h'; rfl
            rw [← hp, ← hbd]
            exact List.mem_cons_self _ _
          · rw [if_neg hp] at h'
            cases h'

theorem lookupLast_isSome_iff (l : List (String × Draft)) (u : String) :
    (lookupLast l u).isSome = true ↔ u ∈ l.map Prod.fst := by
  induction l with
  | nil => simp [lookupLast]
  | cons p rest ih =>
      obtain ⟨a, b⟩ := p
      rw [lookupLast_cons]
      cases hrest : lookupLast rest u with
      | some d =>
          simp only [Option.isSome_some, true_iff]
          have hmem : u ∈ rest.map Prod.fst := ih.mp (by rw [hrest]; rfl)
          exact List.mem_cons_of_mem _ hmem
      | none =>
          have hnr : ¬ u ∈ rest.map Prod.fst := by
            intro hu
            have := ih.mpr hu
            rw [hrest] at this
            cases this
          by_cases hp : a = u
          · simp [hp]
          · have hup : ¬ u = a := fun h => hp h.symm
            simp [hp, hup, hnr]

theorem batch_upsert_items_nil (s : Store) (c : String) (now : Int) :
    batch_upsert_items s c [] now = s := rfl

theorem batch_upsert_items_cons (s : Store) (c : String) (p : String × Draft)
    (l : List (String × Draft)) (now : Int) :
    batch_upsert_items s c (p :: l) now
      = batch_upsert_items (putPosting s (c, p.1) (normItem p.1 p.2 now)) c l now := rfl

theorem batch_upsert_items_append (s : Store) (c : String)
    (l₁ l₂ : List (String × Draft)) (now : Int) :
    batch_upsert_items s c (l₁ ++ l₂) now
      = batch_upsert_items (batch_upsert_items s c l₁ now) c l₂ now := by
  unfold batch_upsert_items
  exact List.foldl_append ..

/-- Reading any key after a `batch_upsert_items` call: the last write for
that url wins, normalized with the call's timestamp; every other key is
untouched. -/
theorem getPosting_batch_upsert_items (s : Store) (c : String)
    (l : List (String × Draft)) (now : Int) (k : String × String) :
    getPosting (batch_upsert_items s c l now) k
      = if k.1 = c then
          match lookupLast l k.2 with
          | some d => some (normItem k.2 d now)
          | none => getPosting s k
        else getPosting s k := by
  obtain ⟨kc, ku⟩ := k
  induction l generalizing s with
  | nil =>
      by_cases h : kc = c <;> simp [batch_upsert_items_nil, lookupLast, h]
  | cons p rest ih =>
      obtain ⟨a, b⟩ := p
      rw [batch_upsert_items_cons, ih, lookupLast_cons]
      cases hrest : lookupLast rest ku with
      | some d =>
          by_cases hc : kc = c <;>
            simp [getPosting_putPosting, hc, Prod.mk.injEq]
      | none =>
          by_cases hc : kc = c
          · by_cases hp : a = ku
            · simp [getPosting_putPosting, hc, hp, Prod.mk.injEq]
            · simp [getPosting_putPosting, hc, hp, Prod.mk.injEq, Ne.symm hp]
          · simp [getPosting_putPosting, hc, Prod.mk.injEq]

/-! ## Finalize lemmas -/

theorem getPosting_filter_key (s : Store) (q : String × String → Bool)
    (k : String × String) :
    getPosting (s.filter (fun e => q e.1)) k
      = if q k = true then getPosting s k else none := by
  by_cases hq : q k = true
  · rw [if_pos hq]
    unfold getPosting
    congr 1
    exact find?_filter_of_imp _ _
      (by
        intro e he
        have : e.1 = k := of_decide_eq_true he
        rw [this, hq]) s
  · rw [if_neg hq]
    rw [getPosting_eq_none_iff]
    intro it hmem
    rw [List.mem_filter] at hmem
    exact hq hmem.2

/-- Reading any key after `finalize_company`: a url of the company that
was stored but is absent from the discovered set reads back as `none`
(deleted); everything else is untouched. -/
theorem getPosting_finalize_company (s : Store) (c : String)
    (disc : List String) (k : String × String) :
    getPosting (finalize_company s c disc).1 k
      = if k.1 = c ∧ k.2 ∈ (listUrls s c).toFinset \ disc.toFinset then none
        else getPosting s k := by
  unfold finalize_company
  simp only
  rw [getPosting_filter_key s (fun k' => decide (¬(k'.1 = c ∧ k'.2 ∈ _))) k]
  by_cases h : k.1 = c ∧ k.2 ∈ (listUrls s c).toFinset \ disc.toFinset
  · rw [if_pos h, if_neg]
    simp only [decide_eq_true_eq]
    intro hcontra
    exact hcontra h
  · rw [if_neg h, if_pos]
    simp only [decide_eq_true_eq]
    exact h

theorem finalize_company_deleted_count (s : Store) (c : String)
    (disc : List String) :
    (finalize_company s c disc).2
      = ((listUrls s c).toFinset \ disc.toFinset).card := rfl

/-! ## Runner configuration and external collaborators -/

/-- Modelled from the spec: the runtime-configuration attributes read by
`src/scraper/runner.py` (`settings.max_new_per_run` at line 45,
`settings.chunk_upsert_size` at lines 84 and 112, `settings.lock_key` and
`settings.lock_ttl_sec` at line 131).  `src/scraper/config.py`'s
`Settings` dataclass (lines 4–18) does not declare these fields; spec §6
lists them as environment-provided external configuration ("storage
endpoint/table identity, lease ttl, chunk size, max-new-per-run cap").
`max_new_per_run` is `Option` because the runner guards on
`is not None`. -/
structure Settings where
  max_new_per_run : Option Nat
  chunk_upsert_size : Nat
  lock_key : String
  lock_ttl_sec : Int

/-- The per-URL result of the detail-fetch-and-extract chain of the
non-JS branch of `process_company` (`src/scraper/runner.py`, lines
92–96): `_fetch_html` + `extract_title` + `extract_description_from_html`
+ `parse_posted_at` + `parse_location_fields`. -/
structure Page where
  title : String
  description : String
  posted_at : Int
  loc_country : String
  loc_admin1 : String
  loc_city : String
  remote : Int
deriving Repr, DecidableEq

/-- One company's external collaborators for a run: `discover` is the
result of `discover_fn(session, settings)` (`none` models a raised
exception, caught per company in `run`); `fetchPage u` is the outcome of
the `try:` body of the non-JS detail loop for url `u` (`none` models an
exception caught by the `except` clause); `batchDesc u` is
`get_descriptions_batch(todo, settings).get(u)` for the meta/netflix
branch. -/
structure CompanyEnv where
  discover : Option (List String)
  fetchPage : String → Option Page
  batchDesc : String → Option String

/-- `list(dict.fromkeys(urls))` (`src/scraper/runner.py`, line 38):
order-preserving deduplication keeping first occurrences. -/
def pyDedup (l : List String) : List String :=
  l.foldl (fun acc x => if x ∈ acc then acc else acc ++ [x]) []

/-- The names routed to the Playwright batch branch
(`src/scraper/runner.py`, line 65). -/
def jsNames : List String := ["meta", "netflix"]

/-- The company map keys (`src/scraper/runner.py`, lines 21–28). -/
def cmapKeys : List String := ["apple", "amazon", "google", "meta", "netflix"]

/-- `todo`: the new-URLs delta of `process_company`
(`src/scraper/runner.py`, lines 42–46): discovered urls not already
stored, optionally truncated to the configured cap. -/
def todoOf (settings : Settings) (s : Store) (name : String)
    (discovered : List String) : List String :=
  let existing := listUrls s name
  let todo0 := discovered.filter (fun u => decide (u ∉ existing))
  match settings.max_new_per_run with
  | some cap => todo0.take cap
  | none => todo0

/-! ## The detail loops of `process_company` -/

/-- The mutable loop state of `process_company`
(`src/scraper/runner.py`, lines 51–53): the store (standing for the
DynamoDB table the flushes write to), the pending `chunk` dict, and the
`written` / `fetched` counters.  `calls` is a ghost trace recording each
url whose detail content the loop requested, used to state which URLs
are detail-fetched. -/
structure LoopSt where
  store : Store
  chunk : List (String × Draft)
  written : Nat
  fetched : Nat
  calls : List String

/-- `flush()` (`src/scraper/runner.py`, lines 55–62): if the chunk is
non-empty, batch-upsert it, add its size to `written` and clear it. -/
def flushChunk (name : String) (now : Int) (st : LoopSt) : LoopSt :=
  if st.chunk = [] then st
  else
    { st with
      store := batch_upsert_items st.store name st.chunk now
      written := st.written + st.chunk.length
      chunk := [] }

/-- The `if len(chunk) >= settings.chunk_upsert_size: flush()` guard at
the bottom of each loop body (`src/scraper/runner.py`, lines 84–85 and
112–113). -/
def maybeFlush (name : String) (now : Int) (chunkSize : Nat) (st : LoopSt) : LoopSt :=
  if chunkSize ≤ st.chunk.length then flushChunk name now st else st

/-- The draft dict built by the non-JS branch for an accepted url
(`src/scraper/runner.py`, lines 103–107). -/
def pageDraft (pg : Page) (cat : String) : Draft :=
  { title := pg.title
    description := pg.description
    category := cat
    posted_at := pg.posted_at
    loc_country := pg.loc_country
    loc_admin1 := pg.loc_admin1
    loc_city := pg.loc_city
    remote := pg.remote }

/-- One iteration of the non-JS detail loop (`src/scraper/runner.py`,
lines 90–114) for url `u` at the 1-based index `i` of
`enumerate(todo, 1)`.  A raised fetch/extract exception
(`fetchPage u = none`) is caught and falls through to the flush guard
and `fetched = i`; the missing-country and non-"it" `continue`
statements skip both.  The ghost `calls` trace records the
`_fetch_html` invocation. -/
def htmlStep (name : String) (env : CompanyEnv)
    (classify : String → String → String) (now : Int) (chunkSize : Nat)
    (u : String) (i : Nat) (st : LoopSt) : LoopSt :=
  let st := { st with calls := st.calls ++ [u] }
  match env.fetchPage u with
  | none => { maybeFlush name now chunkSize st with fetched := i }
  | some pg =>
      if pg.loc_country = "" then st
      else
        let cat := classify pg.title pg.description
        if cat ≠ "it" then st
        else
          let st := { st with chunk := st.chunk ++ [(u, pageDraft pg cat)] }
          { maybeFlush name now chunkSize st with fetched := i }

/-- The non-JS detail loop (`src/scraper/runner.py`, lines 90–114). -/
def htmlLoop (name : String) (env : CompanyEnv) (classify : String → String → String)
    (now : Int) (chunkSize : Nat) : List String → Nat → LoopSt → LoopSt
  | [], _, st => st
  | u :: rest, i, st =>
      htmlLoop name env classify now chunkSize rest (i + 1)
        (htmlStep name env classify now chunkSize u i st)

/-- The draft dict built by the meta/netflix branch
(`src/scraper/runner.py`, lines 77–81): empty title and location fields,
`posted_at = int(time.time())`, `remote = 0`. -/
def jsDraft (desc cat : String) (now : Int) : Draft :=
  { title := ""
    description := desc
    category := cat
    posted_at := now
    loc_country := ""
    loc_admin1 := ""
    loc_city := ""
    remote := 0 }

/-- One iteration of the meta/netflix loop body (`src/scraper/runner.py`,
lines 69–85): `desc = batch_desc.get(u) or ""`, empty title,
classification on the description alone, `continue` on a non-"it"
category. -/
def jsStep (name : String) (env : CompanyEnv)
    (classify : String → String → String) (now : Int) (chunkSize : Nat)
    (u : String) (st : LoopSt) : LoopSt :=
  let desc := (env.batchDesc u).getD ""
  let cat := classify "" desc
  if cat ≠ "it" then st
  else
    maybeFlush name now chunkSize
      { st with chunk := st.chunk ++ [(u, jsDraft desc cat now)] }

/-- The meta/netflix detail loop (`src/scraper/runner.py`, lines 69–85). -/
def jsLoop (name : String) (env : CompanyEnv) (classify : String → String → String)
    (now : Int) (chunkSize : Nat) : List String → LoopSt → LoopSt
  | [], st => st
  | u :: rest, st =>
      jsLoop name env classify now chunkSize rest
        (jsStep name env classify now chunkSize u st)

/-! ## `process_company` and `run` -/

/-- The dict returned by `process_company` (`src/scraper/runner.py`,
line 123). -/
structure CompanyResult where
  pages_fetched : Nat
  new_rows : Nat
deriving Repr, DecidableEq

/-- `return {"pages_fetched": fetched, "new_rows": written}`
(`src/scraper/runner.py`, line 123) as the literal key/value list. -/
def resultDict (r : CompanyResult) : List (String × Nat) :=
  [("pages_fetched", r.pages_fetched), ("new_rows", r.new_rows)]

/-- Everything observable of one `process_company` call: the returned
dict, the resulting table state, the ghost trace of detail-fetched urls,
and the deleted count that `finalize_company` returned (logged at
`src/scraper/runner.py` line 120 but not part of the returned dict). -/
structure PCOut where
  result : CompanyResult
  store : Store
  fetchCalls : List String
  deleted : Nat
deriving Repr, DecidableEq

/-- `process_company(name, discover_fn, session, settings)`
(`src/scraper/runner.py`, lines 35–123) in AWS mode (`USE_DDB = True`),
given the successful discovery result `urls` (the raising case is
handled by `run`): dedup, delta against the stored urls, optional cap,
the branch dispatch `if name in ("meta", "netflix") and todo:`, the
detail loop with chunked flushing, the trailing `flush()`, and the
`finalize_company` deletion pass over the full discovered list. -/
def process_company (name : String) (urls : List String) (env : CompanyEnv)
    (classify : String → String → String) (settings : Settings)
    (s : Store) (now : Int) : PCOut :=
  let discovered := pyDedup urls
  let todo := todoOf settings s name discovered
  let init : LoopSt := { store := s, chunk := [], written := 0, fetched := 0, calls := [] }
  let final :=
    if name ∈ jsNames ∧ todo ≠ [] then
      let st := jsLoop name env classify now settings.chunk_upsert_size todo
        { init with calls := todo }
      flushChunk name now { st with fetched := todo.length }
    else
      flushChunk name now
        (htmlLoop name env classify now settings.chunk_upsert_size todo 1 init)
  let fin := finalize_company final.store name discovered
  { result := { pages_fetched := final.fetched, new_rows := final.written }
    store := fin.1
    fetchCalls := final.calls
    deleted := fin.2 }

/-- The whole-run outcome of `run` (`src/scraper/runner.py`, lines
125–148): the summary dict in insertion order, the table state and the
lease table. -/
structure RunOut where
  summary : List (String × CompanyResult)
  store : Store
  locks : Locks

/-- The `targets` list of `run` (`src/scraper/runner.py`, line 138):
the requested companies (default all) restricted to known names. -/
def targetsOf (companies : List String) : List String :=
  (if companies = [] then cmapKeys else companies).filter (fun c => decide (c ∈ cmapKeys))

/-- The per-company fold of `run`'s loop (`src/scraper/runner.py`, lines
139–143): a company whose discovery raises is caught and logged, leaving
summary and table untouched; otherwise `process_company` runs and its
dict is recorded. -/
def runStep (env : String → CompanyEnv) (classify : String → String → String)
    (settings : Settings) (now : Int)
    (acc : List (String × CompanyResult) × Store) (name : String) :
    List (String × CompanyResult) × Store :=
  match (env name).discover with
  | none => acc
  | some urls =>
      let out := process_company name urls (env name) classify settings acc.2 now
      (acc.1 ++ [(name, out.result)], out.store)

/-- `run(companies, settings)` (`src/scraper/runner.py`, lines 125–148)
in AWS mode: acquire the lease (returning the empty summary untouched on
"busy"), process each target company with per-company error isolation,
and release the lease on the way out (`finally`, only when it was
acquired). -/
def run (companies : List String) (env : String → CompanyEnv)
    (classify : String → String → String) (settings : Settings)
    (locks : Locks) (s : Store) (now : Int) : RunOut :=
  let acq := acquire_lock locks settings.lock_key settings.lock_ttl_sec now
  if acq.1 = false then
    { summary := [], store := s, locks := acq.2 }
  else
    let fin := (targetsOf companies).foldl (runStep env classify settings now) ([], s)
    { summary := fin.1, store := fin.2, locks := release_lock acq.2 settings.lock_key }

/-! ## Collapsing the loops: the semantic store of a loop state -/

/-- The store a loop state denotes once its pending chunk is flushed:
chunked flushing is a buffering strategy, so every loop lemma is stated
against this semantic store. -/
def loopSem (name : String) (now : Int) (st : LoopSt) : Store :=
  batch_upsert_items st.store name st.chunk now

theorem store_flushChunk (name : String) (now : Int) (st : LoopSt) :
    (flushChunk name now st).store = loopSem name now st := by
  unfold flushChunk loopSem
  by_cases h : st.chunk = [] <;> simp [h, batch_upsert_items_nil]

theorem loopSem_flushChunk (name : String) (now : Int) (st : LoopSt) :
    loopSem name now (flushChunk name now st) = loopSem name now st := by
  unfold flushChunk
  by_cases h : st.chunk = [] <;>
    simp [h, loopSem, batch_upsert_items_nil]

theorem loopSem_maybeFlush (name : String) (now : Int) (cs : Nat) (st : LoopSt) :
    loopSem name now (maybeFlush name now cs st) = loopSem name now st := by
  unfold maybeFlush
  by_cases h : cs ≤ st.chunk.length <;> simp [h, loopSem_flushChunk]

theorem fetched_flushChunk (name : String) (now : Int) (st : LoopSt) :
    (flushChunk name now st).fetched = st.fetched := by
  unfold flushChunk
  by_cases h : st.chunk = [] <;> simp [h]

theorem fetched_maybeFlush (name : String) (now : Int) (cs : Nat) (st : LoopSt) :
    (maybeFlush name now cs st).fetched = st.fetched := by
  unfold maybeFlush
  by_cases h : cs ≤ st.chunk.length <;> simp [h, fetched_flushChunk]

theorem calls_flushChunk (name : String) (now : Int) (st : LoopSt) :
    (flushChunk name now st).calls = st.calls := by
  unfold flushChunk
  by_cases h : st.chunk = [] <;> simp [h]

theorem calls_maybeFlush (name : String) (now : Int) (cs : Nat) (st : LoopSt) :
    (maybeFlush name now cs st).calls = st.calls := by
  unfold maybeFlush
  by_cases h : cs ≤ st.chunk.length <;> simp [h, calls_flushChunk]

/-- The per-url acceptance decision of the non-JS loop: the draft stored
for `u`, or `none` when the fetch raised, the country is missing, or the
classification is not "it" (`src/scraper/runner.py`, lines 91–107). -/
def htmlAccept (env : CompanyEnv) (classify : String → String → String)
    (u : String) : Option Draft :=
  match env.fetchPage u with
  | none => none
  | some pg =>
      if pg.loc_country = "" then none
      else
        let cat := classify pg.title pg.description
        if cat ≠ "it" then none else some (pageDraft pg cat)

/-- The per-url acceptance decision of the meta/netflix loop
(`src/scraper/runner.py`, lines 69–81). -/
def jsAccept (env : CompanyEnv) (classify : String → String → String)
    (now : Int) (u : String) : Option Draft :=
  let desc := (env.batchDesc u).getD ""
  let cat := classify "" desc
  if cat ≠ "it" then none else some (jsDraft desc cat now)

/-- Which acceptance decision applies for a company name. -/
def acceptFor (name : String) (env : CompanyEnv)
    (classify : String → String → String) (now : Int) (u : String) : Option Draft :=
  if name ∈ jsNames then jsAccept env classify now u else htmlAccept env classify u

/-- The `(url, draft)` pairs a loop accumulates over `todo`. -/
def acceptedPairs (accept : String → Option Draft) (todo : List String) :
    List (String × Draft) :=
  todo.filterMap (fun u => (accept u).map (fun d => (u, d)))


theorem acceptedPairs_nil (accept : String → Option Draft) :
    acceptedPairs accept [] = [] := rfl

theorem acceptedPairs_cons_none (accept : String → Option Draft)
    (u : String) (rest : List String) (h : accept u = none) :
    acceptedPairs accept (u :: rest) = acceptedPairs accept rest := by
  simp [acceptedPairs, h]

theorem acceptedPairs_cons_some (accept : String → Option Draft)
    (u : String) (rest : List String) (d : Draft) (h : accept u = some d) :
    acceptedPairs accept (u :: rest) = (u, d) :: acceptedPairs accept rest := by
  simp [acceptedPairs, h]

/-- Whether the non-JS loop iteration for `u` reaches the trailing
`fetched = i` statement (`src/scraper/runner.py`, line 114): the two
`continue` statements (missing country at lines 97–99 and non-"it"
category at lines 101–102) skip it, while the `except` path falls
through to it. -/
def countedHtml (env : CompanyEnv) (classify : String → String → String)
    (u : String) : Bool :=
  match env.fetchPage u with
  | none => true
  | some pg =>
      if pg.loc_country = "" then false
      else if classify pg.title pg.description ≠ "it" then false else true

theorem htmlLoop_nil (name : String) (env : CompanyEnv)
    (classify : String → String → String) (now : Int) (cs : Nat) (i : Nat)
    (st : LoopSt) :
    htmlLoop name env classify now cs [] i st = st := rfl

theorem htmlLoop_cons (name : String) (env : CompanyEnv)
    (classify : String → String → String) (now : Int) (cs : Nat)
    (u : String) (rest : List String) (i : Nat) (st : LoopSt) :
    htmlLoop name env classify now cs (u :: rest) i st
      = htmlLoop name env classify now cs rest (i + 1)
          (htmlStep name env classify now cs u i st) := rfl

theorem jsLoop_nil (name : String) (env : CompanyEnv)
    (classify : String → String → String) (now : Int) (cs : Nat) (st : LoopSt) :
    jsLoop name env classify now cs [] st = st := rfl

theorem jsLoop_cons (name : String) (env : CompanyEnv)
    (classify : String → String → String) (now : Int) (cs : Nat)
    (u : String) (rest : List String) (st : LoopSt) :
    jsLoop name env classify now cs (u :: rest) st
      = jsLoop name env classify now cs rest
          (jsStep name env classify now cs u st) := rfl

/-! ### Branch equations for the loop bodies -/

theorem htmlStep_eq_err (name : String) (env : CompanyEnv)
    (classify : String → String → String) (now : Int) (cs : Nat)
    (u : String) (i : Nat) (st : LoopSt) (hf : env.fetchPage u = none) :
    htmlStep name env classify now cs u i st
      = { maybeFlush name now cs { st with calls := st.calls ++ [u] } with
          fetched := i } := by
  simp only [htmlStep, hf]

theorem htmlStep_eq_skip_country (name : String) (env : CompanyEnv)
    (classify : String → String → String) (now : Int) (cs : Nat)
    (u : String) (i : Nat) (st : LoopSt) (pg : Page)
    (hf : env.fetchPage u = some pg) (hc : pg.loc_country = "") :
    htmlStep name env classify now cs u i st
      = { st with calls := st.calls ++ [u] } := by
  simp only [htmlStep, hf]
  rw [if_pos hc]

theorem htmlStep_eq_skip_cat (name : String) (env : CompanyEnv)
    (classify : String → String → String) (now : Int) (cs : Nat)
    (u : String) (i : Nat) (st : LoopSt) (pg : Page)
    (hf : env.fetchPage u = some pg) (hc : ¬ pg.loc_country = "")
    (hcat : classify pg.title pg.description ≠ "it") :
    htmlStep name env classify now cs u i st
      = { st with calls := st.calls ++ [u] } := by
  simp only [htmlStep, hf]
  rw [if_neg hc, if_pos hcat]

theorem htmlStep_eq_accept (name : String) (env : CompanyEnv)
    (classify : String → String → String) (now : Int) (cs : Nat)
    (u : String) (i : Nat) (st : LoopSt) (pg : Page)
    (hf : env.fetchPage u = some pg) (hc : ¬ pg.loc_country = "")
    (hcat : ¬ classify pg.title pg.description ≠ "it") :
    htmlStep name env classify now cs u i st
      = { maybeFlush name now cs
            { st with
              calls := st.calls ++ [u]
              chunk := st.chunk ++ [(u, pageDraft pg (classify pg.title pg.description))] }
          with fetched := i } := by
  simp only [htmlStep, hf]
  rw [if_neg hc, if_neg hcat]

theorem htmlAccept_eq_err (env : CompanyEnv) (classify : String → String → String)
    (u : String) (hf : env.fetchPage u = none) :
    htmlAccept env classify u = none := by
  simp only [htmlAccept, hf]

theorem htmlAccept_eq_skip_country (env : CompanyEnv)
    (classify : String → String → String) (u : String) (pg : Page)
    (hf : env.fetchPage u = some pg) (hc : pg.loc_country = "") :
    htmlAccept env classify u = none := by
  simp only [htmlAccept, hf]
  rw [if_pos hc]

theorem htmlAccept_eq_skip_cat (env : CompanyEnv)
    (classify : String → String → String) (u : String) (pg : Page)
    (hf : env.fetchPage u = some pg) (hc : ¬ pg.loc_country = "")
    (hcat : classify pg.title pg.description ≠ "it") :
    htmlAccept env classify u = none := by
  simp only [htmlAccept, hf]
  rw [if_neg hc, if_pos hcat]

theorem htmlAccept_eq_accept (env : CompanyEnv)
    (classify : String → String → String) (u : String) (pg : Page)
    (hf : env.fetchPage u = some pg) (hc : ¬ pg.loc_country = "")
    (hcat : ¬ classify pg.title pg.description ≠ "it") :
    htmlAccept env classify u
      = some (pageDraft pg (classify pg.title pg.description)) := by
  simp only [htmlAccept, hf]
  rw [if_neg hc, if_neg hcat]

theorem jsStep_eq_skip (name : String) (env : CompanyEnv)
    (classify : String → String → String) (now : Int) (cs : Nat)
    (u : String) (st : LoopSt)
    (hcat : classify "" ((env.batchDesc u).getD "") ≠ "it") :
    jsStep name env classify now cs u st = st := by
  simp only [jsStep]
  rw [if_pos hcat]

theorem jsStep_eq_accept (name : String) (env : CompanyEnv)
    (classify : String → String → String) (now : Int) (cs : Nat)
    (u : String) (st : LoopSt)
    (hcat : ¬ classify "" ((env.batchDesc u).getD "") ≠ "it") :
    jsStep name env classify now cs u st
      = maybeFlush name now cs
          { st with
            chunk := st.chunk ++ [(u, jsDraft ((env.batchDesc u).getD "")
              (classify "" ((env.batchDesc u).getD "")) now)] } := by
  simp only [jsStep]
  rw [if_neg hcat]

theorem jsAccept_eq_skip (env : CompanyEnv) (classify : String → String → String)
    (now : Int) (u : String)
    (hcat : classify "" ((env.batchDesc u).getD "") ≠ "it") :
    jsAccept env classify now u = none := by
  simp only [jsAccept]
  rw [if_pos hcat]

theorem jsAccept_eq_accept (env : CompanyEnv) (classify : String → String → String)
    (now : Int) (u : String)
    (hcat : ¬ classify "" ((env.batchDesc u).getD "") ≠ "it") :
    jsAccept env classify now u
      = some (jsDraft ((env.batchDesc u).getD "")
          (classify "" ((env.batchDesc u).getD "")) now) := by
  simp only [jsAccept]
  rw [if_neg hcat]

/-! ### Step lemmas -/

theorem loopSem_htmlStep (name : String) (env : CompanyEnv)
    (classify : String → String → String) (now : Int) (cs : Nat)
    (u : String) (i : Nat) (st : LoopSt) :
    loopSem name now (htmlStep name env classify now cs u i st)
      = batch_upsert_items (loopSem name now st) name
          (acceptedPairs (htmlAccept env classify) [u]) now := by
  cases hf : env.fetchPage u with
  | none =>
      rw [htmlStep_eq_err name env classify now cs u i st hf,
        acceptedPairs_cons_none _ _ _ (htmlAccept_eq_err env classify u hf),
        acceptedPairs_nil, batch_upsert_items_nil]
      show loopSem name now (maybeFlush name now cs { st with calls := st.calls ++ [u] }) = _
      rw [loopSem_maybeFlush]
      rfl
  | some pg =>
      by_cases hc : pg.loc_country = ""
      · rw [htmlStep_eq_skip_country name env classify now cs u i st pg hf hc,
          acceptedPairs_cons_none _ _ _ (htmlAccept_eq_skip_country env classify u pg hf hc),
          acceptedPairs_nil, batch_upsert_items_nil]
        rfl
      · by_cases hcat : classify pg.title pg.description ≠ "it"
        · rw [htmlStep_eq_skip_cat name env classify now cs u i st pg hf hc hcat,
            acceptedPairs_cons_none _ _ _ (htmlAccept_eq_skip_cat env classify u pg hf hc hcat),
            acceptedPairs_nil, batch_upsert_items_nil]
          rfl
        · rw [htmlStep_eq_accept name env classify now cs u i st pg hf hc hcat,
            acceptedPairs_cons_some _ _ _ _ (htmlAccept_eq_accept env classify u pg hf hc hcat),
            acceptedPairs_nil]
          show loopSem name now (maybeFlush name now cs
            { st with
              calls := st.calls ++ [u]
              chunk := st.chunk ++ [(u, pageDraft pg (classify pg.title pg.description))] }) = _
          rw [loopSem_maybeFlush]
          show batch_upsert_items st.store name
              (st.chunk ++ [(u, pageDraft pg (classify pg.title pg.description))]) now = _
          rw [batch_upsert_items_append]
          rfl

theorem calls_htmlStep (name : String) (env : CompanyEnv)
    (classify : String → String → String) (now : Int) (cs : Nat)
    (u : String) (i : Nat) (st : LoopSt) :
    (htmlStep name env classify now cs u i st).calls = st.calls ++ [u] := by
  cases hf : env.fetchPage u with
  | none =>
      rw [htmlStep_eq_err name env classify now cs u i st hf]
      show (maybeFlush name now cs { st with calls := st.calls ++ [u] }).calls = _
      rw [calls_maybeFlush]
  | some pg =>
      by_cases hc : pg.loc_country = ""
      · rw [htmlStep_eq_skip_country name env classify now cs u i st pg hf hc]
      · by_cases hcat : classify pg.title pg.description ≠ "it"
        · rw [htmlStep_eq_skip_cat name env classify now cs u i st pg hf hc hcat]
        · rw [htmlStep_eq_accept name env classify now cs u i st pg hf hc hcat]
          show (maybeFlush name now cs
            { st with
              calls := st.calls ++ [u]
              chunk := st.chunk ++ [(u, pageDraft pg (classify pg.title pg.description))] }).calls = _
          rw [calls_maybeFlush]

theorem fetched_htmlStep_cases (name : String) (env : CompanyEnv)
    (classify : String → String → String) (now : Int) (cs : Nat)
    (u : String) (i : Nat) (st : LoopSt) :
    (htmlStep name env classify now cs u i st).fetched = st.fetched
      ∨ (htmlStep name env classify now cs u i st).fetched = i := by
  cases hf : env.fetchPage u with
  | none =>
      right
      rw [htmlStep_eq_err name env classify now cs u i st hf]
  | some pg =>
      by_cases hc : pg.loc_country = ""
      · left
        rw [htmlStep_eq_skip_country name env classify now cs u i st pg hf hc]
      · by_cases hcat : classify pg.title pg.description ≠ "it"
        · left
          rw [htmlStep_eq_skip_cat name env classify now cs u i st pg hf hc hcat]
        · right
          rw [htmlStep_eq_accept name env classify now cs u i st pg hf hc hcat]

theorem fetched_htmlStep_counted (name : String) (env : CompanyEnv)
    (classify : String → String → String) (now : Int) (cs : Nat)
    (u : String) (i : Nat) (st : LoopSt)
    (hu : countedHtml env classify u = true) :
    (htmlStep name env classify now cs u i st).fetched = i := by
  cases hf : env.fetchPage u with
  | none => rw [htmlStep_eq_err name env classify now cs u i st hf]
  | some pg =>
      simp only [countedHtml, hf] at hu
      by_cases hc : pg.loc_country = ""
      · rw [if_pos hc] at hu
        cases hu
      · rw [if_neg hc] at hu
        by_cases hcat : classify pg.title pg.description ≠ "it"
        · rw [if_pos hcat] at hu
          cases hu
        · rw [htmlStep_eq_accept name env classify now cs u i st pg hf hc hcat]

theorem loopSem_jsStep (name : String) (env : CompanyEnv)
    (classify : String → String → String) (now : Int) (cs : Nat)
    (u : String) (st : LoopSt) :
    loopSem name now (jsStep name env classify now cs u st)
      = batch_upsert_items (loopSem name now st) name
          (acceptedPairs (jsAccept env classify now) [u]) now := by
  by_cases hcat : classify "" ((env.batchDesc u).getD "") ≠ "it"
  · rw [jsStep_eq_skip name env classify now cs u st hcat,
      acceptedPairs_cons_none _ _ _ (jsAccept_eq_skip env classify now u hcat),
      acceptedPairs_nil, batch_upsert_items_nil]
  · rw [jsStep_eq_accept name env classify now cs u st hcat,
      acceptedPairs_cons_some _ _ _ _ (jsAccept_eq_accept env classify now u hcat),
      acceptedPairs_nil, loopSem_maybeFlush]
    show batch_upsert_items st.store name
        (st.chunk ++ [(u, jsDraft ((env.batchDesc u).getD "")
          (classify "" ((env.batchDesc u).getD "")) now)]) now = _
    rw [batch_upsert_items_append]
    rfl

theorem calls_jsStep (name : String) (env : CompanyEnv)
    (classify : String → String → String) (now : Int) (cs : Nat)
    (u : String) (st : LoopSt) :
    (jsStep name env classify now cs u st).calls = st.calls := by
  by_cases hcat : classify "" ((env.batchDesc u).getD "") ≠ "it"
  · rw [jsStep_eq_skip name env classify now cs u st hcat]
  · rw [jsStep_eq_accept name env classify now cs u st hcat, calls_maybeFlush]

theorem fetched_jsStep (name : String) (env : CompanyEnv)
    (classify : String → String → String) (now : Int) (cs : Nat)
    (u : String) (st : LoopSt) :
    (jsStep name env classify now cs u st).fetched = st.fetched := by
  by_cases hcat : classify "" ((env.batchDesc u).getD "") ≠ "it"
  · rw [jsStep_eq_skip name env classify now cs u st hcat]
  · rw [jsStep_eq_accept name env classify now cs u st hcat, fetched_maybeFlush]

/-! ### Loop lemmas -/

theorem loopSem_htmlLoop (name : String) (env : CompanyEnv)
    (classify : String → String → String) (now : Int) (cs : Nat)
    (todo : List String) (i : Nat) (st : LoopSt) :
    loopSem name now (htmlLoop name env classify now cs todo i st)
      = batch_upsert_items (loopSem name now st) name
          (acceptedPairs (htmlAccept env classify) todo) now := by
  induction todo generalizing i st with
  | nil => rw [htmlLoop_nil, acceptedPairs_nil, batch_upsert_items_nil]
  | cons u rest ih =>
      rw [htmlLoop_cons, ih, loopSem_htmlStep]
      cases hacc : htmlAccept env classify u with
      | none =>
          rw [acceptedPairs_cons_none _ _ _ hacc, acceptedPairs_cons_none _ _ _ hacc,
            acceptedPairs_nil, batch_upsert_items_nil]
      | some d =>
          rw [acceptedPairs_cons_some _ _ _ _ hacc, acceptedPairs_cons_some _ _ _ _ hacc,
            acceptedPairs_nil, ← batch_upsert_items_append]
          rfl

theorem loopSem_jsLoop (name : String) (env : CompanyEnv)
    (classify : String → String → String) (now : Int) (cs : Nat)
    (todo : List String) (st : LoopSt) :
    loopSem name now (jsLoop name env classify now cs todo st)
      = batch_upsert_items (loopSem name now st) name
          (acceptedPairs (jsAccept env classify now) todo) now := by
  induction todo generalizing st with
  | nil => rw [jsLoop_nil, acceptedPairs_nil, batch_upsert_items_nil]
  | cons u rest ih =>
      rw [jsLoop_cons, ih, loopSem_jsStep]
      cases hacc : jsAccept env classify now u with
      | none =>
          rw [acceptedPairs_cons_none _ _ _ hacc, acceptedPairs_cons_none _ _ _ hacc,
            acceptedPairs_nil, batch_upsert_items_nil]
      | some d =>
          rw [acceptedPairs_cons_some _ _ _ _ hacc, acceptedPairs_cons_some _ _ _ _ hacc,
            acceptedPairs_nil, ← batch_upsert_items_append]
          rfl

theorem calls_htmlLoop (name : String) (env : CompanyEnv)
    (classify : String → String → String) (now : Int) (cs : Nat)
    (todo : List String) (i : Nat) (st : LoopSt) :
    (htmlLoop name env classify now cs todo i st).calls = st.calls ++ todo := by
  induction todo generalizing i st with
  | nil =>
      rw [htmlLoop_nil, List.append_nil]
  | cons u rest ih =>
      rw [htmlLoop_cons, ih, calls_htmlStep, List.append_assoc]
      rfl

theorem calls_jsLoop (name : String) (env : CompanyEnv)
    (classify : String → String → String) (now : Int) (cs : Nat)
    (todo : List String) (st : LoopSt) :
    (jsLoop name env classify now cs todo st).calls = st.calls := by
  induction todo generalizing st with
  | nil => rw [jsLoop_nil]
  | cons u rest ih => rw [jsLoop_cons, ih, calls_jsStep]

theorem fetched_jsLoop (name : String) (env : CompanyEnv)
    (classify : String → String → String) (now : Int) (cs : Nat)
    (todo : List String) (st : LoopSt) :
    (jsLoop name env classify now cs todo st).fetched = st.fetched := by
  induction todo generalizing st with
  | nil => rw [jsLoop_nil]
  | cons u rest ih => rw [jsLoop_cons, ih, fetched_jsStep]

theorem fetched_htmlLoop_le (name : String) (env : CompanyEnv)
    (classify : String → String → String) (now : Int) (cs : Nat)
    (todo : List String) (j : Nat) (st : LoopSt) :
    (htmlLoop name env classify now cs todo (j + 1) st).fetched = st.fetched
      ∨ (htmlLoop name env classify now cs todo (j + 1) st).fetched ≤ j + todo.length := by
  induction todo generalizing j st with
  | nil =>
      left
      rw [htmlLoop_nil]
  | cons u rest ih =>
      rw [htmlLoop_cons]
      have hstep := fetched_htmlStep_cases name env classify now cs u (j + 1) st
      cases ih (j + 1) (htmlStep name env classify now cs u (j + 1) st) with
      | inl h =>
          cases hstep with
          | inl h' =>
              left
              rw [h, h']
          | inr h' =>
              right
              rw [h, h']
              simp only [List.length_cons]
              omega
      | inr h =>
          right
          calc (htmlLoop name env classify now cs rest (j + 1 + 1)
                (htmlStep name env classify now cs u (j + 1) st)).fetched
              ≤ (j + 1) + rest.length := h
            _ ≤ j + (u :: rest).length := by
                simp only [List.length_cons]
                omega

theorem fetched_htmlLoop_eq (name : String) (env : CompanyEnv)
    (classify : String → String → String) (now : Int) (cs : Nat)
    (todo : List String) (j : Nat) (st : LoopSt)
    (hall : ∀ u ∈ todo, countedHtml env classify u = true) (hne : todo ≠ []) :
    (htmlLoop name env classify now cs todo (j + 1) st).fetched = j + todo.length := by
  induction todo generalizing j st with
  | nil => exact absurd rfl hne
  | cons u rest ih =>
      have hu : countedHtml env classify u = true := hall u (List.mem_cons_self _ _)
      have hrest : ∀ v ∈ rest, countedHtml env classify v = true :=
        fun v hv => hall v (List.mem_cons_of_mem _ hv)
      rw [htmlLoop_cons]
      by_cases hr : rest = []
      · subst hr
        rw [htmlLoop_nil, fetched_htmlStep_counted name env classify now cs u (j + 1) st hu]
        simp
      · rw [ih (j + 1) _ hrest hr]
        simp only [List.length_cons]
        omega

/-! ## Characterizing `process_company` -/

theorem acceptFor_eq_js (name : String) (env : CompanyEnv)
    (classify : String → String → String) (now : Int) (hjs : name ∈ jsNames) :
    acceptFor name env classify now = jsAccept env classify now := by
  funext u
  unfold acceptFor
  rw [if_pos hjs]

theorem acceptFor_eq_html (name : String) (env : CompanyEnv)
    (classify : String → String → String) (now : Int) (hjs : ¬ name ∈ jsNames) :
    acceptFor name env classify now = htmlAccept env classify := by
  funext u
  unfold acceptFor
  rw [if_neg hjs]

/-- The initial loop state of `process_company`, with an arbitrary ghost
trace. -/
theorem loopSem_init (name : String) (now : Int) (s : Store) (cs : List String) :
    loopSem name now { store := s, chunk := [], written := 0, fetched := 0, calls := cs }
      = s := rfl

/-- The net table effect of one `process_company` call: upsert the
accepted drafts of `todo` (in order), then run the finalize deletion pass
against the full deduplicated discovered list. -/
theorem process_company_store (name : String) (urls : List String)
    (env : CompanyEnv) (classify : String → String → String)
    (settings : Settings) (s : Store) (now : Int) :
    (process_company name urls env classify settings s now).store
      = (finalize_company
          (batch_upsert_items s name
            (acceptedPairs (acceptFor name env classify now)
              (todoOf settings s name (pyDedup urls))) now)
          name (pyDedup urls)).1 := by
  simp only [process_company]
  apply congrArg (fun t : Store => (finalize_company t name (pyDedup urls)).1)
  by_cases hb : name ∈ jsNames ∧ todoOf settings s name (pyDedup urls) ≠ []
  · rw [if_pos hb]
    show (flushChunk name now _).store = _
    rw [store_flushChunk]
    show loopSem name now
        (jsLoop name env classify now settings.chunk_upsert_size
          (todoOf settings s name (pyDedup urls))
          { store := s, chunk := [], written := 0, fetched := 0,
            calls := todoOf settings s name (pyDedup urls) }) = _
    rw [loopSem_jsLoop, loopSem_init, acceptFor_eq_js name env classify now hb.1]
  · rw [if_neg hb]
    show (flushChunk name now _).store = _
    rw [store_flushChunk, loopSem_htmlLoop, loopSem_init]
    by_cases hjs : name ∈ jsNames
    · have htodo : todoOf settings s name (pyDedup urls) = [] := by
        by_contra hne
        exact hb ⟨hjs, hne⟩
      rw [htodo, acceptedPairs_nil, acceptedPairs_nil]
    · rw [acceptFor_eq_html name env classify now hjs]

/-- The deleted count that `finalize_company` reports to the log
(`src/scraper/runner.py`, line 120). -/
theorem process_company_deleted (name : String) (urls : List String)
    (env : CompanyEnv) (classify : String → String → String)
    (settings : Settings) (s : Store) (now : Int) :
    (process_company name urls env classify settings s now).deleted
      = (finalize_company
          (batch_upsert_items s name
            (acceptedPairs (acceptFor name env classify now)
              (todoOf settings s name (pyDedup urls))) now)
          name (pyDedup urls)).2 := by
  simp only [process_company]
  apply congrArg (fun t : Store => (finalize_company t name (pyDedup urls)).2)
  by_cases hb : name ∈ jsNames ∧ todoOf settings s name (pyDedup urls) ≠ []
  · rw [if_pos hb]
    show (flushChunk name now _).store = _
    rw [store_flushChunk]
    show loopSem name now
        (jsLoop name env classify now settings.chunk_upsert_size
          (todoOf settings s name (pyDedup urls))
          { store := s, chunk := [], written := 0, fetched := 0,
            calls := todoOf settings s name (pyDedup urls) }) = _
    rw [loopSem_jsLoop, loopSem_init, acceptFor_eq_js name env classify now hb.1]
  · rw [if_neg hb]
    show (flushChunk name now _).store = _
    rw [store_flushChunk, loopSem_htmlLoop, loopSem_init]
    by_cases hjs : name ∈ jsNames
    · have htodo : todoOf settings s name (pyDedup urls) = [] := by
        by_contra hne
        exact hb ⟨hjs, hne⟩
      rw [htodo, acceptedPairs_nil, acceptedPairs_nil]
    · rw [acceptFor_eq_html name env classify now hjs]

/-- Exactly the urls of `todo` are detail-fetched, in order. -/
theorem process_company_calls (name : String) (urls : List String)
    (env : CompanyEnv) (classify : String → String → String)
    (settings : Settings) (s : Store) (now : Int) :
    (process_company name urls env classify settings s now).fetchCalls
      = todoOf settings s name (pyDedup urls) := by
  simp only [process_company]
  by_cases hb : name ∈ jsNames ∧ todoOf settings s name (pyDedup urls) ≠ []
  · rw [if_pos hb]
    show (flushChunk name now _).calls = _
    rw [calls_flushChunk]
    show (jsLoop name env classify now settings.chunk_upsert_size
        (todoOf settings s name (pyDedup urls))
        { store := s, chunk := [], written := 0, fetched := 0,
          calls := todoOf settings s name (pyDedup urls) }).calls = _
    rw [calls_jsLoop]
  · rw [if_neg hb]
    show (flushChunk name now _).calls = _
    rw [calls_flushChunk, calls_htmlLoop]
    rfl

/-- The returned `pages_fetched` never exceeds the size of `todo`. -/
theorem process_company_fetched_le (name : String) (urls : List String)
    (env : CompanyEnv) (classify : String → String → String)
    (settings : Settings) (s : Store) (now : Int) :
    (process_company name urls env classify settings s now).result.pages_fetched
      ≤ (todoOf settings s name (pyDedup urls)).length := by
  simp only [process_company]
  by_cases hb : name ∈ jsNames ∧ todoOf settings s name (pyDedup urls) ≠ []
  · rw [if_pos hb]
    show (flushChunk name now _).fetched ≤ _
    rw [fetched_flushChunk]
  · rw [if_neg hb]
    show (flushChunk name now _).fetched ≤ _
    rw [fetched_flushChunk]
    have h := fetched_htmlLoop_le name env classify now settings.chunk_upsert_size
      (todoOf settings s name (pyDedup urls)) 0
      { store := s, chunk := [], written := 0, fetched := 0, calls := [] }
    cases h with
    | inl h =>
        rw [h]
        exact Nat.zero_le _
    | inr h =>
        calc _ ≤ 0 + (todoOf settings s name (pyDedup urls)).length := h
          _ = _ := Nat.zero_add _

/-- Whether an iteration of the relevant detail loop for `u` reaches its
per-iteration `fetched` update: always for the meta/netflix branch
(whose `fetched = len(todo)` is assigned after the loop). -/
def countedFor (name : String) (env : CompanyEnv)
    (classify : String → String → String) (u : String) : Bool :=
  if name ∈ jsNames then true else countedHtml env classify u

/-- When no `todo` iteration is skipped by a `continue`, the returned
`pages_fetched` equals the size of `todo`. -/
theorem process_company_fetched_eq (name : String) (urls : List String)
    (env : CompanyEnv) (classify : String → String → String)
    (settings : Settings) (s : Store) (now : Int)
    (hall : ∀ u ∈ todoOf settings s name (pyDedup urls),
      countedFor name env classify u = true) :
    (process_company name urls env classify settings s now).result.pages_fetched
      = (todoOf settings s name (pyDedup urls)).length := by
  simp only [process_company]
  by_cases hb : name ∈ jsNames ∧ todoOf settings s name (pyDedup urls) ≠ []
  · rw [if_pos hb]
    show (flushChunk name now _).fetched = _
    rw [fetched_flushChunk]
  · rw [if_neg hb]
    show (flushChunk name now _).fetched = _
    rw [fetched_flushChunk]
    by_cases hne : todoOf settings s name (pyDedup urls) = []
    · rw [hne, htmlLoop_nil]
      rfl
    · have hjs : ¬ name ∈ jsNames := by
        intro hjs
        exact hb ⟨hjs, hne⟩
      have hall' : ∀ u ∈ todoOf settings s name (pyDedup urls),
          countedHtml env classify u = true := by
        intro u hu
        have h := hall u hu
        unfold countedFor at h
        rwa [if_neg hjs] at h
      have h := fetched_htmlLoop_eq name env classify now settings.chunk_upsert_size
        (todoOf settings s name (pyDedup urls)) 0
        { store := s, chunk := [], written := 0, fetched := 0, calls := [] }
        hall' hne
      rw [h, Nat.zero_add]

/-! ## Membership lemmas -/

theorem mem_pyDedup (l : List String) (u : String) :
    u ∈ pyDedup l ↔ u ∈ l := by
  have hgen : ∀ (l : List String) (acc : List String),
      u ∈ l.foldl (fun acc x => if x ∈ acc then acc else acc ++ [x]) acc
        ↔ u ∈ acc ∨ u ∈ l := by
    intro l
    induction l with
    | nil => intro acc; simp
    | cons x rest ih =>
        intro acc
        show u ∈ rest.foldl _ (if x ∈ acc then acc else acc ++ [x]) ↔ _
        rw [ih]
        by_cases hx : x ∈ acc
        · rw [if_pos hx]
          constructor
          · rintro (h | h)
            · exact Or.inl h
            · exact Or.inr (List.mem_cons_of_mem _ h)
          · rintro (h | h)
            · exact Or.inl h
            · rcases List.mem_cons.mp h with h | h
              · exact Or.inl (h ▸ hx)
              · exact Or.inr h
        · rw [if_neg hx]
          simp only [List.mem_append, List.mem_singleton, List.mem_cons]
          tauto
  unfold pyDedup
  rw [hgen]
  simp

theorem todoOf_of_no_cap (settings : Settings) (s : Store) (name : String)
    (disc : List String) (h : settings.max_new_per_run = none) (u : String) :
    u ∈ todoOf settings s name disc ↔ u ∈ disc ∧ ¬ u ∈ listUrls s name := by
  unfold todoOf
  rw [h]
  simp only [List.mem_filter, decide_eq_true_eq]

theorem mem_todoOf (settings : Settings) (s : Store) (name : String)
    (disc : List String) (u : String) (h : u ∈ todoOf settings s name disc) :
    u ∈ disc ∧ ¬ u ∈ listUrls s name := by
  unfold todoOf at h
  have h' : u ∈ disc.filter (fun u => decide (u ∉ listUrls s name)) := by
    cases hcap : settings.max_new_per_run with
    | none =>
        rw [hcap] at h
        exact h
    | some cap =>
        rw [hcap] at h
        exact List.mem_of_mem_take h
  rw [List.mem_filter, decide_eq_true_eq] at h'
  exact h'

theorem mem_acceptedPairs (f : String → Option Draft) (todo : List String)
    (u : String) (d : Draft) :
    (u, d) ∈ acceptedPairs f todo ↔ u ∈ todo ∧ f u = some d := by
  unfold acceptedPairs
  rw [List.mem_filterMap]
  constructor
  · rintro ⟨a, ha, hmap⟩
    rcases Option.map_eq_some'.mp hmap with ⟨da, hda, heq⟩
    have hau : a = u := congrArg Prod.fst heq
    have hdd : da = d := congrArg Prod.snd heq
    subst hau
    subst hdd
    exact ⟨ha, hda⟩
  · rintro ⟨hu, hd⟩
    exact ⟨u, hu, by rw [hd]; rfl⟩

theorem lookupLast_acceptedPairs (f : String → Option Draft) (todo : List String)
    (u : String) :
    lookupLast (acceptedPairs f todo) u = if u ∈ todo then f u else none := by
  by_cases hu : u ∈ todo
  · rw [if_pos hu]
    cases hf : f u with
    | none =>
        cases hl : lookupLast (acceptedPairs f todo) u with
        | none => rfl
        | some d =>
            have := (mem_acceptedPairs f todo u d).mp (lookupLast_mem hl)
            rw [hf] at this
            cases this.2
    | some d =>
        cases hl : lookupLast (acceptedPairs f todo) u with
        | none =>
            exfalso
            have hmem : u ∈ (acceptedPairs f todo).map Prod.fst := by
              rw [List.mem_map]
              exact ⟨(u, d), (mem_acceptedPairs f todo u d).mpr ⟨hu, hf⟩, rfl⟩
            have := (lookupLast_isSome_iff (acceptedPairs f todo) u).mpr hmem
            rw [hl] at this
            cases this
        | some d' =>
            have := (mem_acceptedPairs f todo u d').mp (lookupLast_mem hl)
            rw [hf] at this
            exact this.2.symm
  · rw [if_neg hu]
    cases hl : lookupLast (acceptedPairs f todo) u with
    | none => rfl
    | some d =>
        have := (mem_acceptedPairs f todo u d).mp (lookupLast_mem hl)
        exact absurd this.1 hu

theorem hasKeyB_batch_upsert_items (s : Store) (c : String)
    (l : List (String × Draft)) (now : Int) (u : String) :
    hasKeyB (batch_upsert_items s c l now) (c, u) = true
      ↔ (lookupLast l u).isSome = true ∨ hasKeyB s (c, u) = true := by
  unfold hasKeyB
  rw [getPosting_batch_upsert_items]
  simp only [if_pos rfl]
  cases hl : lookupLast l u with
  | none => simp
  | some d => simp

theorem hasKeyB_finalize_company (s : Store) (c : String)
    (disc : List String) (u : String) :
    hasKeyB (finalize_company s c disc).1 (c, u) = true
      ↔ hasKeyB s (c, u) = true ∧ u ∈ disc := by
  unfold hasKeyB
  rw [getPosting_finalize_company]
  by_cases h : (c, u).1 = c ∧ (c, u).2 ∈ (listUrls s c).toFinset \ disc.toFinset
  · rw [if_pos h]
    simp only [Option.isSome_none]
    constructor
    · intro hfalse
      cases hfalse
    · rintro ⟨hs, hd⟩
      exfalso
      have h2 := h.2
      rw [Finset.mem_sdiff, List.mem_toFinset, List.mem_toFinset] at h2
      exact h2.2 hd
  · rw [if_neg h]
    constructor
    · intro hs
      refine ⟨hs, ?_⟩
      by_contra hd
      apply h
      refine ⟨rfl, ?_⟩
      rw [Finset.mem_sdiff, List.mem_toFinset, List.mem_toFinset]
      refine ⟨?_, hd⟩
      rw [mem_listUrls_iff]
      unfold hasKeyB
      exact hs
    · intro hs
      exact hs.1

/-! ## Frame lemmas: a company's run only touches its own partition -/

theorem getPosting_batch_upsert_items_frame (s : Store) (c : String)
    (l : List (String × Draft)) (now : Int) (k : String × String)
    (hne : k.1 ≠ c) :
    getPosting (batch_upsert_items s c l now) k = getPosting s k := by
  rw [getPosting_batch_upsert_items, if_neg hne]

theorem getPosting_finalize_company_frame (s : Store) (c : String)
    (disc : List String) (k : String × String) (hne : k.1 ≠ c) :
    getPosting (finalize_company s c disc).1 k = getPosting s k := by
  rw [getPosting_finalize_company, if_neg (fun hk => hne hk.1)]

theorem getPosting_process_company_frame (name : String) (urls : List String)
    (env : CompanyEnv) (classify : String → String → String)
    (settings : Settings) (s : Store) (now : Int) (k : String × String)
    (hne : k.1 ≠ name) :
    getPosting (process_company name urls env classify settings s now).store k
      = getPosting s k := by
  rw [process_company_store, getPosting_finalize_company_frame _ _ _ _ hne,
    getPosting_batch_upsert_items_frame _ _ _ _ _ hne]

/-! ## The `run` fold -/

theorem run_foldl_frame (env : String → CompanyEnv)
    (classify : String → String → String) (settings : Settings) (now : Int)
    (X : String) (hX : (env X).discover = none)
    (targets : List String) (acc : List (String × CompanyResult) × Store) (u : String) :
    getPosting (targets.foldl (runStep env classify settings now) acc).2 (X, u)
      = getPosting acc.2 (X, u) := by
  induction targets generalizing acc with
  | nil => rfl
  | cons Y rest ih =>
      show getPosting (rest.foldl _ (runStep env classify settings now acc Y)).2 (X, u) = _
      rw [ih]
      unfold runStep
      cases hd : (env Y).discover with
      | none => rfl
      | some urls =>
          have hYX : Y ≠ X := by
            intro h
            rw [h, hX] at hd
            cases hd
          simp only
          exact getPosting_process_company_frame Y urls (env Y) classify settings
            acc.2 now (X, u) (fun h => hYX (h.symm))

theorem run_foldl_summary_entries (env : String → CompanyEnv)
    (classify : String → String → String) (settings : Settings) (now : Int)
    (targets : List String) (acc : List (String × CompanyResult) × Store)
    (p : String × CompanyResult)
    (hp : p ∈ (targets.foldl (runStep env classify settings now) acc).1) :
    p ∈ acc.1 ∨ (p.1 ∈ targets ∧ (env p.1).discover ≠ none) := by
  induction targets generalizing acc with
  | nil => exact Or.inl hp
  | cons Y rest ih =>
      have hp' : p ∈ (rest.foldl (runStep env classify settings now)
          (runStep env classify settings now acc Y)).1 := hp
      rcases ih (runStep env classify settings now acc Y) hp' with h | h
      · unfold runStep at h
        cases hd : (env Y).discover with
        | none =>
            rw [hd] at h
            exact Or.inl h
        | some urls =>
            rw [hd] at h
            simp only at h
            rcases List.mem_append.mp h with h | h
            · exact Or.inl h
            · have hpY : p.1 = Y := by
                rcases List.mem_singleton.mp h with rfl
                rfl
              right
              refine ⟨hpY ▸ List.mem_cons_self _ _, ?_⟩
              rw [hpY, hd]
              intro hcontra
              cases hcontra
      · exact Or.inr ⟨List.mem_cons_of_mem _ h.1, h.2⟩

theorem run_foldl_summary_prefix (env : String → CompanyEnv)
    (classify : String → String → String) (settings : Settings) (now : Int)
    (targets : List String) (acc : List (String × CompanyResult) × Store) :
    ∃ l', (targets.foldl (runStep env classify settings now) acc).1 = acc.1 ++ l' := by
  induction targets generalizing acc with
  | nil => exact ⟨[], (List.append_nil _).symm⟩
  | cons Y rest ih =>
      rcases ih (runStep env classify settings now acc Y) with ⟨l'', hl⟩
      cases hd : (env Y).discover with
      | none =>
          refine ⟨l'', ?_⟩
          show (rest.foldl _ (runStep env classify settings now acc Y)).1 = _
          rw [hl]
          unfold runStep
          rw [hd]
      | some urls =>
          refine ⟨(Y, (process_company Y urls (env Y) classify settings acc.2 now).result) :: l'', ?_⟩
          show (rest.foldl _ (runStep env classify settings now acc Y)).1 = _
          rw [hl]
          unfold runStep
          rw [hd]
          simp only
          rw [List.append_assoc]
          rfl

theorem run_foldl_summary_mem (env : String → CompanyEnv)
    (classify : String → String → String) (settings : Settings) (now : Int)
    (targets : List String) (acc : List (String × CompanyResult) × Store)
    (Y : String) (hY : Y ∈ targets) (hd : (env Y).discover ≠ none) :
    Y ∈ (targets.foldl (runStep env classify settings now) acc).1.map Prod.fst := by
  induction targets generalizing acc with
  | nil => cases hY
  | cons Z rest ih =>
      show Y ∈ (rest.foldl _ (runStep env classify settings now acc Z)).1.map Prod.fst
      by_cases hZY : Z = Y
      · subst hZY
        cases hdz : (env Z).discover with
        | none => exact absurd hdz hd
        | some urls =>
            rcases run_foldl_summary_prefix env classify settings now rest
              (runStep env classify settings now acc Z) with ⟨l', hl⟩
            rw [hl, List.map_append, List.mem_append]
            left
            unfold runStep
            rw [hdz]
            simp only [List.map_append, List.mem_append]
            right
            simp
      · have hY' : Y ∈ rest := by
          rcases List.mem_cons.mp hY with h | h
          · exact absurd h.symm hZY
          · exact h
        exact ih _ hY'

/-! ## Lease lemmas -/

theorem acquire_lock_fail_locks (ls : Locks) (key : String) (ttl now : Int)
    (h : (acquire_lock ls key ttl now).1 = false) :
    (acquire_lock ls key ttl now).2 = ls := by
  cases hl : lockLookup ls key with
  | none =>
      have ht : (acquire_lock ls key ttl now).1 = true := by
        simp only [acquire_lock, hl]
      rw [ht] at h
      cases h
  | some e =>
      by_cases he : e ≤ now
      · have ht : (acquire_lock ls key ttl now).1 = true := by
          simp only [acquire_lock, hl]
          rw [if_pos he]
        rw [ht] at h
        cases h
      · simp only [acquire_lock, hl]
        rw [if_neg he]

theorem lockLookup_single (key : String) (e : Int) :
    lockLookup [(key, e)] key = some e := by
  simp [lockLookup, List.find?]

theorem putLock_single_none (key : String) (v : Int) :
    putLock [] key v = [(key, v)] := rfl

theorem putLock_single_overwrite (key : String) (e v : Int) :
    putLock [(key, e)] key v = [(key, v)] := by
  simp [putLock, List.filter]

theorem release_lock_single (key : String) (e : Int) :
    release_lock [(key, e)] key = [] := by
  simp [release_lock, List.filter]

/-- Invariant of the lease table under the single deployment lease name:
it holds at most one record. -/
theorem lockReach_shape (key : String) (ls : Locks) (h : LockReach key ls) :
    ls = [] ∨ ∃ e, ls = [(key, e)] := by
  induction h with
  | init => exact Or.inl rfl
  | acq ttl now prev ih =>
      rcases ih with h' | ⟨e, h'⟩
      · subst h'
        exact Or.inr ⟨now + ttl, rfl⟩
      · subst h'
        by_cases he : e ≤ now
        · right
          refine ⟨now + ttl, ?_⟩
          have hacq : acquire_lock [(key, e)] key ttl now
              = (true, putLock [(key, e)] key (now + ttl)) := by
            simp only [acquire_lock, lockLookup_single]
            rw [if_pos he]
          rw [hacq, putLock_single_overwrite]
        · right
          refine ⟨e, ?_⟩
          have hacq : acquire_lock [(key, e)] key ttl now = (false, [(key, e)]) := by
            simp only [acquire_lock, lockLookup_single]
            rw [if_neg he]
          rw [hacq]
  | rel prev ih =>
      rcases ih with h' | ⟨e, h'⟩
      · subst h'
        exact Or.inl rfl
      · subst h'
        exact Or.inl (release_lock_single key e)

/-! ## The query API (`src/api/handler.py`) -/

/-- The effective page-size limit of `lambda_handler`
(`src/api/handler.py`, line 48):
`limit = min(max(int(qs.get("limit", "50")), 1), 200)`; an absent
parameter defaults to 50. -/
def effLimit (limit_param : Option Int) : Int :=
  min (max (limit_param.getD 50) 1) 200

/-- The read-path serialization of one stored item by `lambda_handler`
(`src/api/handler.py`, lines 99–112), minus the `company`/`url` fields,
which duplicate the item's key: title, description, category, posted_at,
the three location fields, and `remote` renormalized to 0/1.  The
`active` and `last_seen_at` attributes are never serialized. -/
def apiFields (it : Item) :
    String × String × String × Int × String × String × String × Int :=
  (it.title, it.description, it.category, it.posted_at,
    it.loc_country, it.loc_admin1, it.loc_city,
    if it.remote = 0 then 0 else 1)

/-! ## Reachable catalogue states -/

/-- Catalogue states reachable from the empty table through the write
operations of `src/storage/dynamo.py`: `_put_item`, `batch_upsert_items`
and `finalize_company` (the lease records live under the reserved
partition key `"__lock__"` and are modelled separately in `Locks`). -/
inductive Reach : Store → Prop
  | nil : Reach []
  | put (c u : String) (d : Draft) (now : Int) {s : Store} :
      Reach s → Reach (put_item s c u d now)
  | batch (c : String) (l : List (String × Draft)) (now : Int) {s : Store} :
      Reach s → Reach (batch_upsert_items s c l now)
  | fin (c : String) (disc : List String) {s : Store} :
      Reach s → Reach (finalize_company s c disc).1

/-- Enumeration of a company's urls restricted to `active = 1` items. -/
def listActiveUrls (s : Store) (company : String) : List String :=
  (s.filter (fun e => decide (e.1.1 = company ∧ e.2.active = 1))).map (fun e => e.1.2)

theorem active_putPosting (s : Store) (k : String × String) (v : Item)
    (hv : v.active = 1) (hs : ∀ e ∈ s, e.2.active = 1) :
    ∀ e ∈ putPosting s k v, e.2.active = 1 := by
  intro e he
  unfold putPosting at he
  rcases List.mem_cons.mp he with h | h
  · rw [h]
    exact hv
  · exact hs e (List.mem_filter.mp h).1

theorem active_batch_upsert_items (s : Store) (c : String)
    (l : List (String × Draft)) (now : Int)
    (hs : ∀ e ∈ s, e.2.active = 1) :
    ∀ e ∈ batch_upsert_items s c l now, e.2.active = 1 := by
  induction l generalizing s with
  | nil => exact hs
  | cons p rest ih =>
      rw [batch_upsert_items_cons]
      exact ih _ (active_putPosting _ _ _ rfl hs)

theorem reach_active (s : Store) (h : Reach s) :
    ∀ e ∈ s, e.2.active = 1 := by
  induction h with
  | nil => intro e he; cases he
  | put c u d now _ ih =>
      exact active_putPosting _ _ _ rfl ih
  | batch c l now _ ih =>
      exact active_batch_upsert_items _ _ _ _ ih
  | fin c disc _ ih =>
      intro e he
      unfold finalize_company at he
      exact ih e (List.mem_filter.mp he).1

/-! ## Concrete fixtures for witnesses and counterexamples -/

/-- A classification oracle accepting everything as "it" (the runner's
checks are what is under test, not the regex of `classify_category`). -/
def demoClassify : String → String → String := fun _ _ => "it"

/-- A fully extractable detail page. -/
def demoPageOK : Page :=
  { title := "Software Engineer", description := "Build things",
    posted_at := 5, loc_country := "US", loc_admin1 := "CA",
    loc_city := "SF", remote := 0 }

/-- A detail page with no resolvable country (the required-field skip of
`src/scraper/runner.py`, lines 97–99). -/
def demoPageNoCountry : Page :=
  { title := "Software Engineer", description := "Build things",
    posted_at := 5, loc_country := "", loc_admin1 := "",
    loc_city := "", remote := 0 }

/-- A stored catalogue item. -/
def demoItem (u : String) : Item :=
  { company_url := u, title := "T", description := "D", category := "it",
    posted_at := 3, loc_country := "US", loc_admin1 := "", loc_city := "",
    remote := 0, active := 1, last_seen_at := 1 }

/-- Run configuration: no cap, chunk size 25, lease "scraper"/5400s. -/
def demoSettings : Settings :=
  { max_new_per_run := none, chunk_upsert_size := 25,
    lock_key := "scraper", lock_ttl_sec := 5400 }

/-- Run configuration with a max-new-per-run cap of 1. -/
def demoSettingsCap : Settings :=
  { max_new_per_run := some 1, chunk_upsert_size := 25,
    lock_key := "scraper", lock_ttl_sec := 5400 }

/-- Catalogue holding urls A, B, D for source "apple". -/
def demoStoreABD : Store :=
  [(("apple", "A"), demoItem "A"), (("apple", "B"), demoItem "B"),
   (("apple", "D"), demoItem "D")]

/-- Catalogue holding one stale url for source "apple". -/
def demoStoreOld : Store := [(("apple", "old"), demoItem "old")]

/-- Catalogue holding one url for source "google". -/
def demoStoreG : Store := [(("google", "G"), demoItem "G")]

/-- Discovery {A, B, C} with a successful detail fetch for C. -/
def demoEnvABC : CompanyEnv :=
  { discover := some ["A", "B", "C"]
    fetchPage := fun u => if u = "C" then some demoPageOK else none
    batchDesc := fun _ => none }

/-- Discovery {C} where C's page lacks a country. -/
def demoEnvC2 : CompanyEnv :=
  { discover := some ["C"]
    fetchPage := fun u => if u = "C" then some demoPageNoCountry else none
    batchDesc := fun _ => none }

/-- Discovery {u1} with a successful fetch. -/
def demoEnvNew : CompanyEnv :=
  { discover := some ["u1"]
    fetchPage := fun u => if u = "u1" then some demoPageOK else none
    batchDesc := fun _ => none }

/-- Discovery {u1, u2, u3}, all fetchable. -/
def demoEnvMany : CompanyEnv :=
  { discover := some ["u1", "u2", "u3"]
    fetchPage := fun _ => some demoPageOK
    batchDesc := fun _ => none }

/-- A multi-source environment where discovery raises for "google" and
succeeds for every other source. -/
def demoEnvRun : String → CompanyEnv := fun name =>
  if name = "google" then
    { discover := none, fetchPage := fun _ => none, batchDesc := fun _ => none }
  else
    { discover := some ["N"]
      fetchPage := fun u => if u = "N" then some demoPageOK else none
      batchDesc := fun _ => none }

/-- A lease table whose lease is far from expiry. -/
def demoLocksBusy : Locks := [("scraper", 1000)]

/-- A draft with a nonzero posted_at. -/
def demoDraft : Draft :=
  { title := "T", description := "D", category := "it", posted_at := 5,
    loc_country := "us", loc_admin1 := "CA", loc_city := "SF", remote := 1 }

/-- A store reached by one batch upsert. -/
def demoReachStore : Store := batch_upsert_items [] "apple" [("u", demoDraft)] 100

/-! ## The claims -/

/-- **C1**: after `process_company`'s finalize step, (a) every previously
stored url of the source absent from the full discovered set is deleted,
(b) no url present in the discovered set is deleted, and (c) in a run
with no max-new-per-run cap and no detail-fetch exceptions, the stored
url set equals the discovered set minus the entries skipped for missing
required fields or rejected classification (`acceptFor ... = none`). -/
theorem C1_finalize_completeness (name : String) (urls : List String)
    (env : CompanyEnv) (classify : String → String → String)
    (settings : Settings) (s : Store) (now : Int) :
    (∀ u, hasKeyB s (name, u) = true → ¬ u ∈ pyDedup urls →
        hasKeyB (process_company name urls env classify settings s now).store
          (name, u) = false)
    ∧ (∀ u, u ∈ pyDedup urls → hasKeyB s (name, u) = true →
        hasKeyB (process_company name urls env classify settings s now).store
          (name, u) = true)
    ∧ (settings.max_new_per_run = none →
        (∀ u ∈ todoOf settings s name (pyDedup urls),
          name ∈ jsNames ∨ (env.fetchPage u).isSome = true) →
        ∀ u, hasKeyB (process_company name urls env classify settings s now).store
            (name, u) = true
          ↔ (u ∈ pyDedup urls
              ∧ ¬(u ∈ todoOf settings s name (pyDedup urls)
                  ∧ acceptFor name env classify now u = none))) := by
  have hstore := process_company_store name urls env classify settings s now
  refine ⟨?_, ?_, ?_⟩
  · intro u hs hd
    rw [hstore]
    cases hk : hasKeyB (finalize_company
        (batch_upsert_items s name
          (acceptedPairs (acceptFor name env classify now)
            (todoOf settings s name (pyDedup urls))) now)
        name (pyDedup urls)).1 (name, u) with
    | false => rfl
    | true =>
        have := (hasKeyB_finalize_company _ _ _ _).mp hk
        exact absurd this.2 hd
  · intro u hd hs
    rw [hstore]
    exact (hasKeyB_finalize_company _ _ _ _).mpr
      ⟨(hasKeyB_batch_upsert_items _ _ _ _ _).mpr (Or.inr hs), hd⟩
  · intro hcap _hok u
    rw [hstore, hasKeyB_finalize_company, hasKeyB_batch_upsert_items,
      lookupLast_acceptedPairs]
    constructor
    · rintro ⟨hor, hdisc⟩
      refine ⟨hdisc, ?_⟩
      rintro ⟨htodo, hnone⟩
      rcases hor with hsome | hkey
      · rw [if_pos htodo, hnone] at hsome
        cases hsome
      · have hnotex := (mem_todoOf settings s name (pyDedup urls) u htodo).2
        rw [mem_listUrls_iff] at hnotex
        exact hnotex hkey
    · rintro ⟨hdisc, hnot⟩
      refine ⟨?_, hdisc⟩
      by_cases hex : hasKeyB s (name, u) = true
      · exact Or.inr hex
      · left
        have htodo : u ∈ todoOf settings s name (pyDedup urls) := by
          rw [todoOf_of_no_cap settings s name _ hcap]
          refine ⟨hdisc, ?_⟩
          rw [mem_listUrls_iff]
          exact hex
        rw [if_pos htodo]
        cases hacc : acceptFor name env classify now u with
        | none => exact absurd ⟨htodo, hacc⟩ hnot
        | some d => rfl

/-- Witness for C1 on the scenario discovered = {A, B, C},
existing = {A, B, D}: D is deleted, A survives, and C's presence matches
the skip-free characterization. -/
theorem C1_finalize_completeness_witness :
    hasKeyB (process_company "apple" ["A", "B", "C"] demoEnvABC demoClassify
        demoSettings demoStoreABD 100).store ("apple", "D") = false
    ∧ hasKeyB (process_company "apple" ["A", "B", "C"] demoEnvABC demoClassify
        demoSettings demoStoreABD 100).store ("apple", "A") = true
    ∧ (hasKeyB (process_company "apple" ["A", "B", "C"] demoEnvABC demoClassify
          demoSettings demoStoreABD 100).store ("apple", "C") = true
        ↔ ("C" ∈ pyDedup ["A", "B", "C"]
            ∧ ¬("C" ∈ todoOf demoSettings demoStoreABD "apple" (pyDedup ["A", "B", "C"])
                ∧ acceptFor "apple" demoEnvABC demoClassify 100 "C" = none))) :=
  ⟨(C1_finalize_completeness "apple" ["A", "B", "C"] demoEnvABC demoClassify
      demoSettings demoStoreABD 100).1 "D" (by decide) (by decide),
   (C1_finalize_completeness "apple" ["A", "B", "C"] demoEnvABC demoClassify
      demoSettings demoStoreABD 100).2.1 "A" (by decide) (by decide),
   (C1_finalize_completeness "apple" ["A", "B", "C"] demoEnvABC demoClassify
      demoSettings demoStoreABD 100).2.2 rfl (by decide) "C"⟩

/-- **C2 counterexample**: for discovered = {C} with an empty catalogue,
C is detail-fetched (`fetchCalls = [C]`) and `todo` has size 1, yet the
returned fetch count is 0, because C's iteration ends in the
missing-country `continue`, which skips the `fetched = i` update
(`src/scraper/runner.py`, lines 97–99 and 114).  This refutes "the
returned fetch count equals the size of todo". -/
theorem C2_counterexample :
    (process_company "apple" ["C"] demoEnvC2 demoClassify demoSettings
        [] 100).fetchCalls = ["C"]
    ∧ (todoOf demoSettings [] "apple" (pyDedup ["C"])).length = 1
    ∧ ¬ ((process_company "apple" ["C"] demoEnvC2 demoClassify demoSettings
          [] 100).result.pages_fetched
        = (todoOf demoSettings [] "apple" (pyDedup ["C"])).length) := by
  decide

/-- **C2 (amended)**: exactly the urls of `todo = discovered − existing`
(truncated by the optional cap) are detail-fetched, in order;
already-catalogued urls are never re-fetched; the returned fetch count is
at most `|todo|`, with equality whenever no `todo` iteration is skipped
by the missing-country or rejected-category `continue`. -/
theorem C2_amended (name : String) (urls : List String) (env : CompanyEnv)
    (classify : String → String → String) (settings : Settings)
    (s : Store) (now : Int) :
    (process_company name urls env classify settings s now).fetchCalls
        = todoOf settings s name (pyDedup urls)
    ∧ (∀ u ∈ (process_company name urls env classify settings s now).fetchCalls,
        hasKeyB s (name, u) = false)
    ∧ (process_company name urls env classify settings s now).result.pages_fetched
        ≤ (todoOf settings s name (pyDedup urls)).length
    ∧ ((∀ u ∈ todoOf settings s name (pyDedup urls),
          countedFor name env classify u = true) →
        (process_company name urls env classify settings s now).result.pages_fetched
          = (todoOf settings s name (pyDedup urls)).length) := by
  refine ⟨process_company_calls name urls env classify settings s now, ?_,
    process_company_fetched_le name urls env classify settings s now,
    process_company_fetched_eq name urls env classify settings s now⟩
  intro u hu
  rw [process_company_calls] at hu
  have h2 := (mem_todoOf settings s name (pyDedup urls) u hu).2
  rw [mem_listUrls_iff] at h2
  cases hk : hasKeyB s (name, u) with
  | false => rfl
  | true => exact absurd hk h2

/-- Witness for the amended C2 on the scenario discovered = {A, B, C},
existing = {A, B, D}: exactly C is fetched and upserted, the count is 1,
A and B are untouched and D is deleted. -/
theorem C2_amended_witness :
    (process_company "apple" ["A", "B", "C"] demoEnvABC demoClassify
        demoSettings demoStoreABD 100).fetchCalls = ["C"]
    ∧ (process_company "apple" ["A", "B", "C"] demoEnvABC demoClassify
        demoSettings demoStoreABD 100).result.pages_fetched
        = (todoOf demoSettings demoStoreABD "apple" (pyDedup ["A", "B", "C"])).length
    ∧ (process_company "apple" ["A", "B", "C"] demoEnvABC demoClassify
        demoSettings demoStoreABD 100).result.new_rows = 1
    ∧ hasKeyB (process_company "apple" ["A", "B", "C"] demoEnvABC demoClassify
        demoSettings demoStoreABD 100).store ("apple", "C") = true
    ∧ hasKeyB (process_company "apple" ["A", "B", "C"] demoEnvABC demoClassify
        demoSettings demoStoreABD 100).store ("apple", "D") = false
    ∧ getPosting (process_company "apple" ["A", "B", "C"] demoEnvABC demoClassify
        demoSettings demoStoreABD 100).store ("apple", "A")
        = getPosting demoStoreABD ("apple", "A")
    ∧ getPosting (process_company "apple" ["A", "B", "C"] demoEnvABC demoClassify
        demoSettings demoStoreABD 100).store ("apple", "B")
        = getPosting demoStoreABD ("apple", "B") := by
  refine ⟨?_, (C2_amended "apple" ["A", "B", "C"] demoEnvABC demoClassify
      demoSettings demoStoreABD 100).2.2.2 (by decide),
    by decide, by decide, by decide, by decide, by decide⟩
  rw [(C2_amended "apple" ["A", "B", "C"] demoEnvABC demoClassify
      demoSettings demoStoreABD 100).1]
  decide

/-- **C3**: if discovery raises for source X, the run for X
short-circuits before finalize — X's stored partition is completely
unchanged (no deletions) and no summary entry is produced for X — while
every other target whose discovery succeeds is still processed and
reported. -/
theorem C3_discovery_failure_isolated (companies : List String)
    (env : String → CompanyEnv) (classify : String → String → String)
    (settings : Settings) (locks : Locks) (s : Store) (now : Int)
    (X : String) (hX : (env X).discover = none) :
    (∀ u, getPosting (run companies env classify settings locks s now).store (X, u)
        = getPosting s (X, u))
    ∧ (∀ r : CompanyResult,
        ¬ (X, r) ∈ (run companies env classify settings locks s now).summary)
    ∧ ((acquire_lock locks settings.lock_key settings.lock_ttl_sec now).1 = true →
        ∀ Y, Y ∈ targetsOf companies → (env Y).discover ≠ none →
          Y ∈ ((run companies env classify settings locks s now).summary.map Prod.fst)) := by
  by_cases hacq : (acquire_lock locks settings.lock_key settings.lock_ttl_sec now).1 = false
  · simp only [run]
    rw [if_pos hacq]
    refine ⟨fun u => rfl, ?_, ?_⟩
    · intro r hmem
      cases hmem
    · intro htrue
      rw [htrue] at hacq
      cases hacq
  · simp only [run]
    rw [if_neg hacq]
    refine ⟨?_, ?_, ?_⟩
    · intro u
      exact run_foldl_frame env classify settings now X hX (targetsOf companies) ([], s) u
    · intro r hmem
      rcases run_foldl_summary_entries env classify settings now (targetsOf companies)
        ([], s) (X, r) hmem with h | h
      · cases h
      · exact h.2 hX
    · intro _ Y hY hdY
      exact run_foldl_summary_mem env classify settings now (targetsOf companies)
        ([], s) Y hY hdY

/-- Witness for C3: discovery raises for "google" while "apple"
succeeds; google's partition and summary are untouched, apple is
reported. -/
theorem C3_discovery_failure_isolated_witness :
    getPosting (run ["apple", "google"] demoEnvRun demoClassify demoSettings
        [] demoStoreG 100).store ("google", "G")
        = getPosting demoStoreG ("google", "G")
    ∧ (∀ r : CompanyResult,
        ¬ ("google", r) ∈ (run ["apple", "google"] demoEnvRun demoClassify
          demoSettings [] demoStoreG 100).summary)
    ∧ "apple" ∈ ((run ["apple", "google"] demoEnvRun demoClassify demoSettings
        [] demoStoreG 100).summary.map Prod.fst) :=
  ⟨(C3_discovery_failure_isolated ["apple", "google"] demoEnvRun demoClassify
      demoSettings [] demoStoreG 100 "google" rfl).1 "G",
   (C3_discovery_failure_isolated ["apple", "google"] demoEnvRun demoClassify
      demoSettings [] demoStoreG 100 "google" rfl).2.1,
   (C3_discovery_failure_isolated ["apple", "google"] demoEnvRun demoClassify
      demoSettings [] demoStoreG 100 "google" rfl).2.2 (by decide) "apple"
      (by decide) (by decide)⟩

/-- **C4**: lease acquisition succeeds iff no lease record exists or the
record's expiry is at or before the current time; a lease expired in the
past is acquirable without an explicit release; and under the single
deployment lease name, a reachable lease table holds at most one
unexpired lease at any instant. -/
theorem C4_lease_acquire_iff (locks : Locks) (key : String) (ttl now : Int) :
    ((acquire_lock locks key ttl now).1 = true
        ↔ (lockLookup locks key = none
            ∨ ∃ e, lockLookup locks key = some e ∧ e ≤ now))
    ∧ (∀ e, lockLookup locks key = some e → e < now →
        (acquire_lock locks key ttl now).1 = true)
    ∧ (LockReach key locks → (unexpiredLeases locks now).length ≤ 1) := by
  refine ⟨?_, ?_, ?_⟩
  · cases hl : lockLookup locks key with
    | none =>
        simp only [acquire_lock, hl]
        simp
    | some e =>
        simp only [acquire_lock, hl]
        by_cases he : e ≤ now
        · rw [if_pos he]
          simp [he]
        · rw [if_neg he]
          constructor
          · intro hfalse
            cases hfalse
          · rintro (hnone | ⟨e', he', hle⟩)
            · cases hnone
            · cases he'
              exact absurd hle he
  · intro e hl hlt
    simp only [acquire_lock, hl]
    rw [if_pos (le_of_lt hlt)]
  · intro hreach
    rcases lockReach_shape key locks hreach with h | ⟨e, h⟩
    · subst h
      exact Nat.zero_le _
    · subst h
      exact List.length_filter_le _ _

/-- Witness for C4: a lease expired at t=3 is re-acquired at t=5, and the
reachable one-record table holds at most one unexpired lease. -/
theorem C4_lease_acquire_iff_witness :
    (acquire_lock [("scraper", 3)] "scraper" 10 5).1 = true
    ∧ (unexpiredLeases [("scraper", 3)] 5).length ≤ 1 :=
  ⟨(C4_lease_acquire_iff [("scraper", 3)] "scraper" 10 5).2.1 3 (by decide) (by decide),
   (C4_lease_acquire_iff [("scraper", 3)] "scraper" 10 5).2.2
     (show LockReach "scraper" [("scraper", 3)] from
       LockReach.acq 2 1 LockReach.init)⟩

/-- **C5**: when lease acquisition fails, the run is skipped entirely:
the summary is empty, the catalogue is untouched (zero writes, zero
deletions) and the lease table is unchanged; the function returns
normally (a skip, not an error). -/
theorem C5_lease_busy_skips_run (companies : List String)
    (env : String → CompanyEnv) (classify : String → String → String)
    (settings : Settings) (locks : Locks) (s : Store) (now : Int)
    (h : (acquire_lock locks settings.lock_key settings.lock_ttl_sec now).1 = false) :
    (run companies env classify settings locks s now).summary = []
    ∧ (run companies env classify settings locks s now).store = s
    ∧ (run companies env classify settings locks s now).locks = locks := by
  have h2 := acquire_lock_fail_locks locks settings.lock_key settings.lock_ttl_sec now h
  simp only [run]
  rw [if_pos h]
  exact ⟨rfl, rfl, h2⟩

/-- Witness for C5: with an unexpired foreign lease, the run is a
complete no-op. -/
theorem C5_lease_busy_skips_run_witness :
    (run ["apple"] demoEnvRun demoClassify demoSettings demoLocksBusy
        demoStoreG 5).summary = []
    ∧ (run ["apple"] demoEnvRun demoClassify demoSettings demoLocksBusy
        demoStoreG 5).store = demoStoreG
    ∧ (run ["apple"] demoEnvRun demoClassify demoSettings demoLocksBusy
        demoStoreG 5).locks = demoLocksBusy :=
  C5_lease_busy_skips_run ["apple"] demoEnvRun demoClassify demoSettings
    demoLocksBusy demoStoreG 5 (by decide)

/-- **C6 counterexample**: two `batch_upsert_items` calls with identical
draft data at successive clock seconds (100 then 101) leave a store
state that differs on read from a single call: `last_seen_at` is stamped
with `int(time.time())` inside each call (`src/storage/dynamo.py`,
line 109), so the claimed byte-for-byte identity fails. -/
theorem C6_counterexample :
    ¬ (getPosting (batch_upsert_items (batch_upsert_items [] "apple"
          [("u", demoDraft)] 100) "apple" [("u", demoDraft)] 101) ("apple", "u")
        = getPosting (batch_upsert_items [] "apple"
          [("u", demoDraft)] 100) ("apple", "u")) := by
  decide

/-- **C6 (amended)**: re-upserting identical drafts is idempotent up to
the write timestamp: every key reads back identically through the query
API's serialization (which omits `last_seen_at` and `active`), provided
the drafts carry a nonzero `posted_at` (a zero/absent `posted_at` is
backfilled with the write time); and when the two calls observe the same
clock second the store states are byte-for-byte identical. -/
theorem C6_amended (s : Store) (c : String) (l : List (String × Draft))
    (now₁ now₂ : Int) (k : String × String)
    (hp : ∀ p ∈ l, p.2.posted_at ≠ 0) :
    ((getPosting (batch_upsert_items (batch_upsert_items s c l now₁) c l now₂) k).map apiFields
        = (getPosting (batch_upsert_items s c l now₁) k).map apiFields)
    ∧ (now₁ = now₂ →
        getPosting (batch_upsert_items (batch_upsert_items s c l now₁) c l now₂) k
          = getPosting (batch_upsert_items s c l now₁) k) := by
  have h1 := getPosting_batch_upsert_items (batch_upsert_items s c l now₁) c l now₂ k
  have h2 := getPosting_batch_upsert_items s c l now₁ k
  by_cases hc : k.1 = c
  · rw [if_pos hc] at h1 h2
    cases hl : lookupLast l k.2 with
    | none =>
        rw [hl] at h1
        exact ⟨by rw [h1], fun _ => by rw [h1]⟩
    | some d =>
        rw [hl] at h1 h2
        have hd : d.posted_at ≠ 0 := hp (k.2, d) (lookupLast_mem hl)
        constructor
        · rw [h1, h2]
          simp only [Option.map_some']
          have : apiFields (normItem k.2 d now₂) = apiFields (normItem k.2 d now₁) := by
            simp only [apiFields, normItem, if_neg hd]
          rw [this]
        · intro hnow
          subst hnow
          rw [h1, h2]
  · rw [if_neg hc] at h1
    exact ⟨by rw [h1], fun _ => by rw [h1]⟩

/-- Witness for the amended C6: the double upsert reads identically
through the API projection, and is bytewise identical at equal
timestamps. -/
theorem C6_amended_witness :
    ((getPosting (batch_upsert_items (batch_upsert_items [] "apple"
          [("u", demoDraft)] 100) "apple" [("u", demoDraft)] 101) ("apple", "u")).map apiFields
        = (getPosting (batch_upsert_items [] "apple"
          [("u", demoDraft)] 100) ("apple", "u")).map apiFields)
    ∧ getPosting (batch_upsert_items (batch_upsert_items [] "apple"
          [("u", demoDraft)] 100) "apple" [("u", demoDraft)] 100) ("apple", "u")
        = getPosting (batch_upsert_items [] "apple"
          [("u", demoDraft)] 100) ("apple", "u") :=
  ⟨(C6_amended [] "apple" [("u", demoDraft)] 100 101 ("apple", "u") (by decide)).1,
   (C6_amended [] "apple" [("u", demoDraft)] 100 100 ("apple", "u") (by decide)).2 rfl⟩

/-- **C7 counterexample**: a run that deletes one stale url reports
`deleted = 1` to the log, yet the dict returned by `process_company`
(`src/scraper/runner.py`, line 123) has exactly the keys
`pages_fetched` and `new_rows` — there is no `deleted` key. -/
theorem C7_counterexample :
    (process_company "apple" ["u1"] demoEnvNew demoClassify demoSettings
        demoStoreOld 100).deleted = 1
    ∧ ¬ "deleted" ∈ (resultDict (process_company "apple" ["u1"] demoEnvNew
        demoClassify demoSettings demoStoreOld 100).result).map Prod.fst := by
  decide

/-- **C7 (amended)**: the per-source result dict contains exactly the two
counts `pages_fetched` and `new_rows`; the deleted count is computed by
`finalize_company` and logged, but not included in the returned entry. -/
theorem C7_amended (name : String) (urls : List String) (env : CompanyEnv)
    (classify : String → String → String) (settings : Settings)
    (s : Store) (now : Int) :
    (resultDict (process_company name urls env classify settings s now).result).map
        Prod.fst = ["pages_fetched", "new_rows"]
    ∧ (process_company name urls env classify settings s now).deleted
        = (finalize_company
            (batch_upsert_items s name
              (acceptedPairs (acceptFor name env classify now)
                (todoOf settings s name (pyDedup urls))) now)
            name (pyDedup urls)).2 :=
  ⟨rfl, process_company_deleted name urls env classify settings s now⟩

/-- **C8**: with a configured max-new-per-run cap, `todo` is truncated to
the cap before fetching, so at most `cap` urls are detail-fetched and the
returned fetch count never exceeds the cap. -/
theorem C8_cap_bounds_fetches (name : String) (urls : List String)
    (env : CompanyEnv) (classify : String → String → String)
    (settings : Settings) (s : Store) (now : Int) (cap : Nat)
    (h : settings.max_new_per_run = some cap) :
    (process_company name urls env classify settings s now).fetchCalls.length ≤ cap
    ∧ (process_company name urls env classify settings s now).result.pages_fetched
        ≤ cap := by
  have htodo : (todoOf settings s name (pyDedup urls)).length ≤ cap := by
    unfold todoOf
    rw [h, List.length_take]
    exact min_le_left _ _
  constructor
  · rw [process_company_calls]
    exact htodo
  · exact le_trans (process_company_fetched_le name urls env classify settings s now) htodo

/-- Witness for C8: with cap = 1 and three new urls, only u1 is fetched
and the count is bounded by 1. -/
theorem C8_cap_bounds_fetches_witness :
    (process_company "apple" ["u1", "u2", "u3"] demoEnvMany demoClassify
        demoSettingsCap [] 100).fetchCalls.length ≤ 1
    ∧ (process_company "apple" ["u1", "u2", "u3"] demoEnvMany demoClassify
        demoSettingsCap [] 100).result.pages_fetched ≤ 1 :=
  C8_cap_bounds_fetches "apple" ["u1", "u2", "u3"] demoEnvMany demoClassify
    demoSettingsCap [] 100 1 rfl

/-- **C9**: the query API's effective page-size limit is clamped to
[1, 200] for every request, and defaults to 50 when the parameter is
absent (`src/api/handler.py`, line 48). -/
theorem C9_limit_clamp (l : Option Int) :
    1 ≤ effLimit l ∧ effLimit l ≤ 200 ∧ effLimit none = 50 := by
  refine ⟨?_, ?_, ?_⟩
  · exact le_min (le_max_right _ _) (by norm_num)
  · exact min_le_right _ _
  · decide

/-- **C10**: every posting the system writes carries `active = 1`
(`src/storage/dynamo.py`, lines 76 and 108) and `finalize_company`
removes stale postings by deletion, so in every reachable catalogue
state all stored postings are active and enumerating a source's urls
without an active filter coincides with enumerating its active urls. -/
theorem C10_active_invariant (s : Store) (h : Reach s) :
    (∀ e ∈ s, e.2.active = 1)
    ∧ ∀ c, listUrls s c = listActiveUrls s c := by
  have h1 := reach_active s h
  refine ⟨h1, ?_⟩
  intro c
  unfold listUrls listActiveUrls
  congr 1
  apply List.filter_congr
  intro e he
  by_cases hc : e.1.1 = c
  · simp [hc, h1 e he]
  · simp [hc]

/-- Witness for C10 on a store reached by one batch upsert. -/
theorem C10_active_invariant_witness :
    (∀ e ∈ demoReachStore, e.2.active = 1)
    ∧ ∀ c, listUrls demoReachStore c = listActiveUrls demoReachStore c :=
  C10_active_invariant demoReachStore
    (Reach.batch "apple" [("u", demoDraft)] 100 Reach.nil)
